import Mathlib

/-!
Shallow embedding of the duplicate-Scrabble engine (scrabbleUtils / bestMoves
modules): alphabet and tile model, dictionary trie and word validation, the
move validator/scorer `calculateMoveScore`, the best-move finder
`findBestMoves`, and the dictionary loading lifecycle.

Conventions of the embedding:
* strings are `List Char` (`Str`); JavaScript `toUpperCase`/`toLowerCase`
  are modelled char-wise (`jsToUpper`/`jsToLower`) on the Latin alphabet the
  program uses (ASCII letters, Catalan letters with diacritics, the internal
  digraph codes);
* the succinct bit-array trie (`FrozenTrie` over `BitString`/`RankDirectory`)
  is modelled by its decoded node tree (`TrieNode`): `lookup` and child
  enumeration follow the source algorithm (linear scan of a node's children);
  the bit-level encoding itself is a data-representation detail none of the
  verified properties touch;
* a board is a total function `Int → Int → BoardCell` accessed through
  `getCell?`, which returns `none` outside the 15×15 range (a JavaScript
  array access yielding `undefined`); an unguarded dereference of such an
  access is a thrown `TypeError`, modelled by the scorer returning `none`;
* `while` loops that walk along a board line carry a fuel argument strictly
  larger than the number of possible iterations (a walk visits pairwise
  distinct positions out of at most 15 board cells plus the candidate's
  tiles), so the fuel never runs out on any input.
-/

abbrev Str := List Char

/-- JavaScript `toLowerCase`, char-wise, on the program's character universe:
ASCII upper → lower, Latin-1 uppercase letters (except `×`) → +0x20,
`Ł` → `ł`, `Ŀ` → `ŀ`; all other characters map to themselves. -/
def jsToLower (c : Char) : Char :=
  if 'A' ≤ c ∧ c ≤ 'Z' then Char.ofNat (c.toNat + 32)
  else if 0xC0 ≤ c.toNat ∧ c.toNat ≤ 0xDE ∧ c.toNat ≠ 0xD7 then Char.ofNat (c.toNat + 32)
  else if c = 'Ł' then 'ł'
  else if c = 'Ŀ' then 'ŀ'
  else c

/-- JavaScript `toUpperCase`, char-wise, inverse table of `jsToLower`. -/
def jsToUpper (c : Char) : Char :=
  if 'a' ≤ c ∧ c ≤ 'z' then Char.ofNat (c.toNat - 32)
  else if 0xE0 ≤ c.toNat ∧ c.toNat ≤ 0xFE ∧ c.toNat ≠ 0xF7 then Char.ofNat (c.toNat - 32)
  else if c = 'ł' then 'Ł'
  else if c = 'ŀ' then 'Ŀ'
  else c

/-- Character equals its own lowercase form (the `char === char.toLowerCase()`
test the source uses for blank detection). -/
def isLowerJs (c : Char) : Bool := c = jsToLower c

/-- REVERSE_DIGRAPH_MAP from types.ts: internal digraph code → display string. -/
def REVERSE_DIGRAPH_MAP (c : Char) : Option Str :=
  if c = 'Û' then some ['Q', 'U']
  else if c = 'Ł' then some ['L', '·', 'L']
  else if c = 'Ý' then some ['N', 'Y']
  else none

/-- LETTER_VALUES from types.ts; absent letters score 0 (the `|| 0` fallback). -/
def LETTER_VALUES (c : Char) : Int :=
  if c = 'A' ∨ c = 'E' ∨ c = 'I' ∨ c = 'R' ∨ c = 'S' ∨ c = 'N' ∨ c = 'O' ∨ c = 'T'
     ∨ c = 'L' ∨ c = 'U' then 1
  else if c = 'C' ∨ c = 'D' ∨ c = 'M' then 2
  else if c = 'B' ∨ c = 'G' ∨ c = 'P' then 3
  else if c = 'F' ∨ c = 'V' then 4
  else if c = 'H' ∨ c = 'J' ∨ c = 'Q' ∨ c = 'Z' then 8
  else if c = 'Ç' ∨ c = 'X' then 10
  else if c = 'Ł' then 10
  else if c = 'Ý' then 10
  else if c = 'Û' then 8
  else 0

structure Tile where
  char : Char
  value : Int
  isBlank : Bool
  displayChar : Str
deriving DecidableEq

/-- createTile from scrabbleUtils: builds a Tile from an internal char; a
lowercase letter denotes a blank (value 0), `?` is the bare wildcard. -/
def createTile (char : Char) : Tile :=
  let isBlank := isLowerJs char ∧ jsToUpper char ≠ jsToLower char
  let upperChar := jsToUpper char
  let displayChar := (REVERSE_DIGRAPH_MAP upperChar).getD [upperChar]
  if char = '?' then
    { char := '?', value := 0, isBlank := true, displayChar := ['?'] }
  else
    { char := char, value := if isBlank then 0 else LETTER_VALUES upperChar,
      isBlank := isBlank, displayChar := displayChar }

/-- Test whether three consecutive input chars spell the doubled-L ligature
(the `['L·L','L.L','L-L'].includes(threeChars.toUpperCase())` check). -/
def lThree (a b c : Char) : Bool :=
  [jsToUpper a, jsToUpper b, jsToUpper c] = ['L', '·', 'L'] ∨
  [jsToUpper a, jsToUpper b, jsToUpper c] = ['L', '.', 'L'] ∨
  [jsToUpper a, jsToUpper b, jsToUpper c] = ['L', '-', 'L']

/-- Test whether two consecutive input chars spell QU or NY, returning the
DIGRAPH_MAP image (the `['QU','NY'].includes(...)` check plus map lookup). -/
def quNy (a b : Char) : Option Char :=
  if [jsToUpper a, jsToUpper b] = ['Q', 'U'] then some 'Û'
  else if [jsToUpper a, jsToUpper b] = ['N', 'Y'] then some 'Ý'
  else none

/-- parseInputWord from scrabbleUtils: greedy left-to-right tokenizer; tries
the 3-char ligature, then the 2-char digraphs, then promotes a bare Q to the
QU tile, then falls back to a single char.  A lowercase first char of a
matched unit denotes a blank. -/
def parseInputWord : Str → List Tile
  | [] => []
  | a :: b :: c :: rest =>
    if lThree a b c then
      createTile (if isLowerJs a then 'ł' else 'Ł') :: parseInputWord rest
    else
      match quNy a b with
      | some mapped =>
        createTile (if isLowerJs a then jsToLower mapped else mapped) ::
          parseInputWord (c :: rest)
      | none =>
        if jsToUpper a = 'Q' then
          createTile (if a = 'q' then 'û' else 'Û') :: parseInputWord (b :: c :: rest)
        else
          createTile a :: parseInputWord (b :: c :: rest)
  | [a, b] =>
    match quNy a b with
    | some mapped => [createTile (if isLowerJs a then jsToLower mapped else mapped)]
    | none =>
      if jsToUpper a = 'Q' then
        createTile (if a = 'q' then 'û' else 'Û') :: parseInputWord [b]
      else
        createTile a :: parseInputWord [b]
  | [a] =>
    if jsToUpper a = 'Q' then [createTile (if a = 'q' then 'û' else 'Û')]
    else [createTile a]

/-- internalToDisplayWord from scrabbleUtils: maps each internal char back to
its display digraph (exact-key lookup, case preserved). -/
def internalToDisplayWord (w : Str) : Str :=
  (w.map (fun c => (REVERSE_DIGRAPH_MAP c).getD [c])).flatten

/-- Internal-char string of a tile sequence (each tile's `char` field),
the form `internalToDisplayWord` is applied to. -/
def tilesChars (ts : List Tile) : Str := ts.map (·.char)

/-- Decoded node of the succinct trie: symbol, word-end flag, children in
their stored order. -/
inductive TrieNode where
  | mk (letter : Char) (final : Bool) (children : List TrieNode)

def TrieNode.letter : TrieNode → Char
  | .mk l _ _ => l

def TrieNode.final : TrieNode → Bool
  | .mk _ f _ => f

def TrieNode.children : TrieNode → List TrieNode
  | .mk _ _ cs => cs

/-- Linear scan of a node's children for a matching letter, first hit wins
(the inner `for` loop of `FrozenTrie.lookup`). -/
def findChild (children : List TrieNode) (c : Char) : Option TrieNode :=
  children.find? (fun child => child.letter = c)

/-- FrozenTrie.lookup: walk the trie symbol by symbol from `node`; a missing
child fails, and the last node must be final. -/
def lookupFrom (node : TrieNode) : Str → Bool
  | [] => node.final
  | c :: rest =>
    match findChild node.children c with
    | some child => lookupFrom child rest
    | none => false

/-- JavaScript whitespace characters relevant to `String.trim`. -/
def isWsJs (c : Char) : Bool := c = ' ' ∨ c = '\t' ∨ c = '\n' ∨ c = '\r'

/-- String.trim: drop leading and trailing whitespace. -/
def jsTrim (w : Str) : Str := (w.dropWhile isWsJs).reverse.dropWhile isWsJs |>.reverse

/-- Unicode NFD decomposition followed by removal of combining marks
(U+0300–U+036F), char-wise on the program's character universe: accented
Latin-1 letters lose their accent (including `Ç` → `C` and the internal codes
`Û` → `U`, `Ý` → `Y`), `Ŀ`/`ŀ` decompose to L plus a middle dot (U+00B7,
which is not a combining mark and survives), bare combining marks vanish. -/
def nfdStripChar (c : Char) : Str :=
  if c = 'À' ∨ c = 'Á' ∨ c = 'Â' ∨ c = 'Ã' ∨ c = 'Ä' ∨ c = 'Å' then ['A']
  else if c = 'Ç' then ['C']
  else if c = 'È' ∨ c = 'É' ∨ c = 'Ê' ∨ c = 'Ë' then ['E']
  else if c = 'Ì' ∨ c = 'Í' ∨ c = 'Î' ∨ c = 'Ï' then ['I']
  else if c = 'Ñ' then ['N']
  else if c = 'Ò' ∨ c = 'Ó' ∨ c = 'Ô' ∨ c = 'Õ' ∨ c = 'Ö' then ['O']
  else if c = 'Ù' ∨ c = 'Ú' ∨ c = 'Û' ∨ c = 'Ü' then ['U']
  else if c = 'Ý' then ['Y']
  else if c = 'Ŀ' then ['L', '·']
  else if c = 'ŀ' then ['l', '·']
  else if 0x300 ≤ c.toNat ∧ c.toNat ≤ 0x36F then []
  else [c]

def stripDiacritics (w : Str) : Str := (w.map nfdStripChar).flatten

/-- Regex `/Q(?!U)/` test: some Q not immediately followed by U. -/
def hasQnotU : Str → Bool
  | [] => false
  | [a] => a = 'Q'
  | a :: b :: rest =>
    if a = 'Q' ∧ b ≠ 'U' then true else hasQnotU (b :: rest)

/-- Global replace of `L·L|L\.L|L-L|ĿL` by `2` (leftmost match, alternatives
tried in regex order at each position). -/
def replaceLdigraphs : Str → Str
  | 'L' :: '·' :: 'L' :: rest => '2' :: replaceLdigraphs rest
  | 'L' :: '.' :: 'L' :: rest => '2' :: replaceLdigraphs rest
  | 'L' :: '-' :: 'L' :: rest => '2' :: replaceLdigraphs rest
  | 'Ŀ' :: 'L' :: rest => '2' :: replaceLdigraphs rest
  | c :: rest => c :: replaceLdigraphs rest
  | [] => []

/-- Global replace of `QU` by `Q`. -/
def replaceQU : Str → Str
  | 'Q' :: 'U' :: rest => 'Q' :: replaceQU rest
  | c :: rest => c :: replaceQU rest
  | [] => []

/-- Global replace of `NY` by `3`. -/
def replaceNY : Str → Str
  | 'N' :: 'Y' :: rest => '3' :: replaceNY rest
  | c :: rest => c :: replaceNY rest
  | [] => []

/-- Global removal of `·` and `.` (the `[·\.]` cleanup). -/
def removeDots (w : Str) : Str := w.filter (fun c => ¬(c = '·' ∨ c = '.'))

/-- validateWord from scrabbleUtils.  With no dictionary loaded every word is
accepted (fail-open).  Otherwise: trim and uppercase, protect `Ç` as `1`,
strip accents, reject a Q not followed by U, map the digraph spellings to the
trie codes (`2`, `Q`, `3`), drop leftover dots, and look the result up. -/
def validateWord (dict : Option TrieNode) (word : Str) : Bool :=
  match dict with
  | none => true
  | some trie =>
    let n0 := (jsTrim word).map jsToUpper
    let n1 := n0.map (fun c => if c = 'Ç' then '1' else c)
    let n2 := stripDiacritics n1
    if hasQnotU n2 then false
    else
      let n3 := replaceLdigraphs n2
      let n4 := replaceQU n3
      let n5 := replaceNY n4
      let n6 := removeDots n5
      lookupFrom trie n6

example : parseInputWord ['C', 'A', 'S', 'A'] =
    [createTile 'C', createTile 'A', createTile 'S', createTile 'A'] := by decide

example : (createTile 'û').displayChar = ['Q', 'U'] ∧ (createTile 'û').isBlank = true := by decide

example :
    parseInputWord ['L', '-', 'L', 'q', 'n', 'Y'] =
      [createTile 'Ł', createTile 'û', createTile 'ý'] := by decide

/-! Board model and the move validator/scorer `calculateMoveScore`. -/

inductive MultiplierType where
  | Normal | DoubleLetter | TripleLetter | DoubleWord | TripleWord | Center
deriving DecidableEq

/-- getMultiplierVal from scrabbleUtils. -/
def getMultiplierVal (t : MultiplierType) (isWord : Bool) : Int :=
  if isWord then
    if t = .DoubleWord ∨ t = .Center then 2
    else if t = .TripleWord then 3
    else 1
  else
    if t = .DoubleLetter then 2
    else if t = .TripleLetter then 3
    else 1

structure BoardCell where
  multiplier : MultiplierType
  tile : Option Tile
deriving DecidableEq

/-- A board is accessed only through `getCell?`; the backing function's values
outside the 15×15 range are never observed (they model cells that do not
exist).  The source cells also carry their own row/col, unread by any of the
operations modelled here. -/
def Board := Int → Int → BoardCell

/-- Array access `board[r][c]`: `none` (JavaScript `undefined`) out of range. -/
def getCell? (b : Board) (r c : Int) : Option BoardCell :=
  if 0 ≤ r ∧ r < 15 ∧ 0 ≤ c ∧ c < 15 then some (b r c) else none

/-- Bounds-guarded occupancy test (`r >= 0 && r < 15 && ... && board[r][c].tile`). -/
def occupied (b : Board) (r c : Int) : Bool :=
  match getCell? b r c with
  | some cell => cell.tile.isSome
  | none => false

/-- Scan of the whole grid for any tile (the board-empty check). -/
def boardIsEmpty (b : Board) : Bool :=
  (List.range 15).all fun r => (List.range 15).all fun c =>
    (b (r : Int) (c : Int)).tile.isNone

inductive Dir where
  | H | V
deriving DecidableEq

/-- Map of the candidate's tiles keyed by their covered coordinates
(`newTilesMap` in the source). -/
def buildNewTilesMap (tiles : List Tile) (startRow startCol dr dc : Int) :
    List ((Int × Int) × Tile) :=
  tiles.enum.map fun p => ((startRow + (p.1 : Int) * dr, startCol + (p.1 : Int) * dc), p.2)

def lookupNewTile (m : List ((Int × Int) × Tile)) (r c : Int) : Option Tile :=
  (m.find? (fun p => p.1 = (r, c))).map (·.2)

/-- Backward scan of `getFullWordString`: step to the previous cell while it
holds a board tile or a candidate tile; returns the true word start.  The
walk visits pairwise distinct occupied positions, so the fuel (chosen larger
than 15 board cells plus the candidate length) never runs out. -/
def scanBackStart (b : Board) (m : List ((Int × Int) × Tile)) :
    Nat → Int → Int → Int → Int → Int × Int
  | 0, r, c, _, _ => (r, c)
  | fuel + 1, r, c, dr, dc =>
    let pr := r - dr
    let pc := c - dc
    if occupied b pr pc ∨ (lookupNewTile m pr pc).isSome then
      scanBackStart b m fuel pr pc dr dc
    else (r, c)

/-- Forward scan of `getFullWordString`: while in range, append the display
form of the board tile, else of the candidate tile, else stop.  In-range
positions along a line number at most 15, below the fuel of 16. -/
def scanForwardWord (b : Board) (m : List ((Int × Int) × Tile)) :
    Nat → Int → Int → Int → Int → Str
  | 0, _, _, _, _ => []
  | fuel + 1, r, c, dr, dc =>
    if 0 ≤ r ∧ r < 15 ∧ 0 ≤ c ∧ c < 15 then
      match (b r c).tile with
      | some t => t.displayChar ++ scanForwardWord b m fuel (r + dr) (c + dc) dr dc
      | none =>
        match lookupNewTile m r c with
        | some t => t.displayChar ++ scanForwardWord b m fuel (r + dr) (c + dc) dr dc
        | none => []
    else []

/-- getFullWordString: find the true start of the word through `startR/startC`
along `(dr,dc)`, then materialize the full display string. -/
def getFullWordString (b : Board) (m : List ((Int × Int) × Tile)) (len : Nat)
    (startR startC dr dc : Int) : Str :=
  let s := scanBackStart b m (16 + len) startR startC dr dc
  scanForwardWord b m 16 s.1 s.2 dr dc

inductive MoveError where
  | outOfBounds
  | cellConflict (r c : Int) (boardDisp newDisp : Str)
  | missingBlank (disp : Str)
  | missingRackLetter (disp : Str)
  | missingCenter
  | tooShortFirstMove
  | notConnected
  | invalidWord (w : Str)
deriving DecidableEq

structure ScoreResult where
  score : Int
  isValid : Bool
  error : Option MoveError
deriving DecidableEq

/-- Running state of the scoring loop of `calculateMoveScore`. -/
structure LoopState where
  totalScore : Int
  mainWordScore : Int
  mainWordMultiplier : Int
  tilesUsedFromRack : Nat
  rackAvailable : List Char
  allWordsValid : Bool
  invalidWordError : Option MoveError
  touchesExisting : Bool
  touchesCenter : Bool
deriving DecidableEq

/-- Remove the first occurrence of `c` (`indexOf` + `splice`); `none` when the
letter is absent. -/
def removeFirst (rack : List Char) (c : Char) : Option (List Char) :=
  match rack with
  | [] => none
  | x :: xs =>
    if x = c then some xs
    else (removeFirst xs c).map (x :: ·)

/-- Sum of the face values of the contiguous run of existing board tiles
starting at `(r,c)` and stepping by `(dr,dc)` (the cross-word scans; runs stay
inside the board, so fuel 16 never runs out). -/
def sumRun (b : Board) : Nat → Int → Int → Int → Int → Int
  | 0, _, _, _, _ => 0
  | fuel + 1, r, c, dr, dc =>
    match getCell? b r c with
    | some cell =>
      match cell.tile with
      | some t => t.value + sumRun b fuel (r + dr) (c + dc) dr dc
      | none => 0
    | none => 0

/-- Perpendicular row step (`crossDr`). -/
def perpDr (dir : Dir) : Int := if dir = .H then 1 else 0

/-- Perpendicular column step (`crossDc`). -/
def perpDc (dir : Dir) : Int := if dir = .H then 0 else 1

/-- Cross-word computation for one newly placed tile: when an existing board
tile touches `(r,c)` perpendicular to the play direction, return the
reconstructed cross word together with its score contribution
`(letterVal + existing run values) * wordMult`, where `letterVal` and
`wordMult` come from the placed tile's own cell. -/
def crossWordData (b : Board) (m : List ((Int × Int) × Tile)) (len : Nat)
    (dir : Dir) (r c : Int) (letterVal wordMult : Int) : Option (Str × Int) :=
  let cdr : Int := perpDr dir
  let cdc : Int := perpDc dir
  let hasPrev := occupied b (r - cdr) (c - cdc)
  let hasNext := occupied b (r + cdr) (c + cdc)
  if hasPrev ∨ hasNext then
    let w := getFullWordString b m len r c cdr cdc
    let back := sumRun b 16 (r - cdr) (c - cdc) (-cdr) (-cdc)
    let fwd := sumRun b 16 (r + cdr) (c + cdc) cdr cdc
    some (w, (letterVal + back + fwd) * wordMult)
  else none

/-- Cross-word handling in the new-tile branch: validate the cross word
(recording the first failure) and add its contribution to the total. -/
def applyCross (dict : Option TrieNode) (b : Board) (m : List ((Int × Int) × Tile))
    (len : Nat) (dir : Dir) (r c : Int) (letterVal wordMult : Int)
    (st : LoopState) : LoopState :=
  match crossWordData b m len dir r c letterVal wordMult with
  | none => st
  | some (w, contrib) =>
    let st1 :=
      if validateWord dict w then st
      else { st with allWordsValid := false, invalidWordError := some (.invalidWord w) }
    { st1 with totalScore := st1.totalScore + contrib }

/-- One iteration of the scoring loop of `calculateMoveScore` at covered cell
`(r,c)`.  `none` models the thrown `TypeError` when the bounds check
(`r >= 15 || c >= 15`, which misses negative indices) lets an out-of-range
access through; `Except.error` is an early `return`. -/
def processTile (dict : Option TrieNode) (b : Board) (m : List ((Int × Int) × Tile))
    (len : Nat) (dir : Dir) (r c : Int) (tile : Tile) (st : LoopState) :
    Option (Except ScoreResult LoopState) :=
  if 15 ≤ r ∨ 15 ≤ c then
    some (.error { score := 0, isValid := false, error := some .outOfBounds })
  else
    let st := if r = 7 ∧ c = 7 then { st with touchesCenter := true } else st
    match getCell? b r c with
    | none => none
    | some cell =>
      let tileInternalChar := jsToUpper tile.char
      match cell.tile with
      | some bt =>
        if jsToUpper bt.char ≠ tileInternalChar then
          some (.error { score := 0, isValid := false,
                         error := some (.cellConflict r c bt.displayChar tile.displayChar) })
        else
          some (.ok { st with mainWordScore := st.mainWordScore + bt.value,
                              touchesExisting := true })
      | none =>
        let st :=
          if occupied b (r - 1) c ∨ occupied b (r + 1) c ∨
             occupied b r (c - 1) ∨ occupied b r (c + 1) then
            { st with touchesExisting := true }
          else st
        let place : List Char → Option (Except ScoreResult LoopState) := fun rack' =>
          let letterVal := tile.value * getMultiplierVal cell.multiplier false
          let wordMult := getMultiplierVal cell.multiplier true
          let st := { st with
            rackAvailable := rack',
            tilesUsedFromRack := st.tilesUsedFromRack + 1,
            mainWordScore := st.mainWordScore + letterVal,
            mainWordMultiplier := st.mainWordMultiplier * wordMult }
          some (.ok (applyCross dict b m len dir r c letterVal wordMult st))
        match removeFirst st.rackAvailable tileInternalChar with
        | some rack' => place rack'
        | none =>
          match removeFirst st.rackAvailable '?' with
          | some rack' => place rack'
          | none =>
            if tile.isBlank then
              some (.error { score := 0, isValid := false,
                             error := some (.missingBlank tile.displayChar) })
            else
              some (.error { score := 0, isValid := false,
                             error := some (.missingRackLetter tile.displayChar) })

/-- The `for` loop of `calculateMoveScore` over the candidate's tiles. -/
def scoreLoop (dict : Option TrieNode) (b : Board) (m : List ((Int × Int) × Tile))
    (len : Nat) (dir : Dir) (startRow startCol dr dc : Int) :
    List (Nat × Tile) → LoopState → Option (Except ScoreResult LoopState)
  | [], st => some (.ok st)
  | (i, tile) :: rest, st =>
    match processTile dict b m len dir (startRow + (i : Int) * dr)
        (startCol + (i : Int) * dc) tile st with
    | none => none
    | some (.error res) => some (.error res)
    | some (.ok st') => scoreLoop dict b m len dir startRow startCol dr dc rest st'

/-- Initial loop state: the main word is reconstructed and validated before
the loop runs. -/
def initialState (dict : Option TrieNode) (b : Board) (m : List ((Int × Int) × Tile))
    (len : Nat) (rack : List Char) (startRow startCol dr dc : Int) : LoopState :=
  let mainWordStr := getFullWordString b m len startRow startCol dr dc
  let bad := 1 < mainWordStr.length ∧ ¬ validateWord dict mainWordStr
  { totalScore := 0, mainWordScore := 0, mainWordMultiplier := 1,
    tilesUsedFromRack := 0, rackAvailable := rack,
    allWordsValid := ¬ bad,
    invalidWordError := if bad then some (.invalidWord mainWordStr) else none,
    touchesExisting := false, touchesCenter := false }

/-- The whole per-tile pass of `calculateMoveScore` (main-word validation and
the scoring loop). -/
def scoreLoopOf (dict : Option TrieNode) (b : Board) (tiles : List Tile)
    (rack : List Char) (startRow startCol : Int) (dir : Dir) :
    Option (Except ScoreResult LoopState) :=
  let dr : Int := if dir = .H then 0 else 1
  let dc : Int := if dir = .H then 1 else 0
  let m := buildNewTilesMap tiles startRow startCol dr dc
  scoreLoop dict b m tiles.length dir startRow startCol dr dc tiles.enum
    (initialState dict b m tiles.length rack startRow startCol dr dc)

/-- Word-validity gate plus final score assembly (main-word multiplier, then
the 50-point bonus for using 7 rack tiles). -/
def finishWords (st : LoopState) : ScoreResult :=
  if ¬ st.allWordsValid then { score := 0, isValid := false, error := st.invalidWordError }
  else
    { score := st.totalScore + st.mainWordScore * st.mainWordMultiplier +
        (if st.tilesUsedFromRack = 7 then 50 else 0),
      isValid := true, error := none }

/-- Placement-rule checks run after the loop: first-move rules on an empty
board, connectivity otherwise; then word validity and score assembly. -/
def finishScore (isEmpty : Bool) (numTiles : Nat) (st : LoopState) : ScoreResult :=
  if isEmpty then
    if ¬ st.touchesCenter then { score := 0, isValid := false, error := some .missingCenter }
    else if numTiles < 2 then
      { score := 0, isValid := false, error := some .tooShortFirstMove }
    else finishWords st
  else if ¬ st.touchesExisting then
    { score := 0, isValid := false, error := some .notConnected }
  else finishWords st

/-- calculateMoveScore from scrabbleUtils.  `none` models a thrown
`TypeError` (negative coordinates slipping past the `>= 15` bounds check);
otherwise the structured `{score, isValid, error?}` result. -/
def calculateMoveScore (dict : Option TrieNode) (b : Board) (tiles : List Tile)
    (currentRack : List Char) (startRow startCol : Int) (dir : Dir) :
    Option ScoreResult :=
  match scoreLoopOf dict b tiles currentRack startRow startCol dir with
  | none => none
  | some (.error res) => some res
  | some (.ok st) => some (finishScore (boardIsEmpty b) tiles.length st)

/-- Board with no tiles and no premium cells (used for concrete instances). -/
def emptyBoard : Board := fun _ _ => { multiplier := .Normal, tile := none }

example :
    calculateMoveScore none emptyBoard [createTile 'C', createTile 'A']
      [createTile 'C' |>.char, 'A'] 0 0 .H =
    some { score := 0, isValid := false, error := some .missingCenter } := by decide

/-! Best-move finder (bestMoves module). -/

/-- INTERNAL_TO_TRIE composed with `toUpperCase` (getTrieChar). -/
def getTrieChar (c : Char) : Char :=
  let u := jsToUpper c
  if u = 'Ç' then '1'
  else if u = 'Ł' then '2'
  else if u = 'Ý' then '3'
  else if u = 'Û' then 'Q'
  else u

/-- TRIE_TO_INTERNAL plus blank lowercasing (getInternalChar). -/
def getInternalChar (tc : Char) (isBlank : Bool) : Char :=
  let base :=
    if tc = '1' then 'Ç'
    else if tc = '2' then 'Ł'
    else if tc = '3' then 'Ý'
    else if tc = 'Q' then 'Û'
    else tc
  if isBlank then jsToLower base else base

def TRIE_ALPHABET : List Char := "ABCDEFGHIJKLMNOPQRSTUVWXYZ123".toList

/-- Tile at a cell (bounds-checked board read). -/
def tileAt (b : Board) (r c : Int) : Option Tile := (getCell? b r c).bind (·.tile)

/-- Start row of the occupied run ending just above row `r` in column `c`
(the `up` scan of computeCrossChecks). -/
def upIndex (b : Board) (c : Int) : Nat → Nat
  | 0 => 0
  | r + 1 => if occupied b (r : Int) c then upIndex b c r else r + 1

/-- End row of the occupied run starting just below the current row (the
`down` scan of computeCrossChecks; fuel 16 covers the at most 14 steps). -/
def downIndex (b : Board) (c : Int) : Nat → Nat → Nat
  | 0, r => r
  | fuel + 1, r =>
    if r + 1 < 15 ∧ occupied b ((r : Int) + 1) c then downIndex b c fuel (r + 1) else r

/-- computeCrossChecks at one cell: `none` for occupied cells and for cells
with no vertical neighbors (unconstrained), else the set of trie symbols
whose insertion completes a dictionary word vertically.  The `filterMap`
positions are occupied by construction of `upIndex`/`downIndex`. -/
def crossCheckAt (b : Board) (trie : TrieNode) (r c : Nat) : Option (List Char) :=
  if (tileAt b (r : Int) (c : Int)).isSome then none
  else
    let up := upIndex b (c : Int) r
    let down := downIndex b (c : Int) 16 r
    if up = r ∧ down = r then none
    else
      let pfx := (List.range (r - up)).filterMap fun i =>
        (tileAt b ((up + i : Nat) : Int) (c : Int)).map fun t => getTrieChar t.char
      let sfx := (List.range (down - r)).filterMap fun i =>
        (tileAt b ((r + 1 + i : Nat) : Int) (c : Int)).map fun t => getTrieChar t.char
      some (TRIE_ALPHABET.filter fun ch => lookupFrom trie (pfx ++ ch :: sfx))

/-- findAnchors: the center cell on an empty board, else every empty cell
with an occupied orthogonal neighbor, row-major. -/
def findAnchors (b : Board) (isBoardEmptyFlag : Bool) : List (Nat × Nat) :=
  if isBoardEmptyFlag then [(7, 7)]
  else
    ((List.range 15).map fun (r : Nat) =>
      (List.range 15).filterMap fun (c : Nat) =>
        let ri : Int := r
        let ci : Int := c
        if (b ri ci).tile.isSome then none
        else if occupied b (ri - 1) ci ∨ occupied b (ri + 1) ci ∨
                occupied b ri (ci - 1) ∨ occupied b ri (ci + 1) then
          some (r, c)
        else none).flatten

/-- Candidate move record.  The source's bookkeeping fields (id, player name,
table number, timestamp, round number) are constants or wall-clock values
unread by the engine and are omitted. -/
structure PlayerMove where
  word : Str
  tiles : List Tile
  row : Int
  col : Int
  direction : Dir
  score : Option Int
  isValid : Option Bool
  error : Option MoveError
deriving DecidableEq

/-- addMove: materialize the emitted word ending (exclusively) at
`endColParam` into a dense tile array reusing existing board tiles, mapping
transposed coordinates back for vertical moves, and dropping candidates that
place no new tile. -/
def addMove (b : Board) (rowParam endColParam : Nat) (w : Str) (dir : Dir) :
    List PlayerMove :=
  let len := w.length
  let startColIndex := endColParam - len
  let build := w.enum.map fun p =>
    match tileAt b (rowParam : Int) ((startColIndex + p.1 : Nat) : Int) with
    | some t => (t, false)
    | none => (createTile p.2, true)
  let tiles := build.map (·.1)
  let newTilesCount := (build.filter (·.2)).length
  if newTilesCount = 0 then []
  else
    [{ word := w, tiles := tiles,
       row := if dir = .H then (rowParam : Int) else (startColIndex : Int),
       col := if dir = .H then (startColIndex : Int) else (rowParam : Int),
       direction := dir, score := none, isValid := none, error := none }]

/-- extendRight: walk right from `col`; descend through existing tiles,
place rack letters (or blanks) allowed by the cross-checks on empty cells,
and emit a move whenever the trie node is final on an empty or off-board
cell.  The fuel of 16 strictly exceeds the at most 15 columns walked. -/
def extendRight (b : Board) (cc : Nat → Nat → Option (List Char)) (dir : Dir) :
    Nat → Nat → Nat → Str → TrieNode → List Char → List PlayerMove
  | 0, _, _, _, _, _ => []
  | fuel + 1, row, col, w, node, rack =>
    if 15 ≤ col then
      if node.final then addMove b row col w dir else []
    else
      match tileAt b (row : Int) (col : Int) with
      | some t =>
        match findChild node.children (getTrieChar t.char) with
        | some child =>
          extendRight b cc dir fuel row (col + 1) (w ++ [t.char]) child rack
        | none => []
      | none =>
        (if node.final then addMove b row col w dir else []) ++
        node.children.foldl (fun acc child =>
          acc ++
          (let tl := child.letter
           let allowedOk :=
             match cc row col with
             | some allowed => allowed.contains tl
             | none => true
           if !allowedOk then []
           else
             match removeFirst rack tl with
             | some rack' =>
               extendRight b cc dir fuel row (col + 1)
                 (w ++ [getInternalChar tl false]) child rack'
             | none =>
               match removeFirst rack '?' with
               | some rack' =>
                 extendRight b cc dir fuel row (col + 1)
                   (w ++ [getInternalChar tl true]) child rack'
               | none => [])) []

/-- leftPart: extend right from the anchor, then grow the left part by up to
`limit` rack letters, descending the trie one level per letter. -/
def leftPart (b : Board) (cc : Nat → Nat → Option (List Char)) (dir : Dir)
    (row anchorCol : Nat) : Str → TrieNode → Nat → List Char → List PlayerMove
  | w, node, 0, rack => extendRight b cc dir 16 row anchorCol w node rack
  | w, node, limit + 1, rack =>
    extendRight b cc dir 16 row anchorCol w node rack ++
    node.children.foldl (fun acc child =>
      acc ++
      (let tl := child.letter
       match removeFirst rack tl with
       | some rack' =>
         leftPart b cc dir row anchorCol (w ++ [getInternalChar tl false]) child limit rack'
       | none =>
         match removeFirst rack '?' with
         | some rack' =>
           leftPart b cc dir row anchorCol (w ++ [getInternalChar tl true]) child limit rack'
         | none => [])) []

/-- Scan back from `c-1` to the start of the contiguous occupied run (the
`start` scan of the existing-prefix case). -/
def findStart (b : Board) (r : Nat) : Nat → Nat
  | 0 => 0
  | s + 1 => if (tileAt b (r : Int) (s : Int)).isSome then findStart b r s else s + 1

/-- Replay the existing prefix `start..c-1` through the trie, accumulating
the internal chars; `none` when the trie lacks a child (invalid prefix, also
covering the unreachable case of a missing tile). -/
def replayPrefix (b : Board) (trie : TrieNode) (r start c : Nat) :
    Str × Option TrieNode :=
  (List.range (c - start)).foldl
    (fun st k =>
      match st.2 with
      | none => st
      | some nd =>
        match tileAt b (r : Int) ((start + k : Nat) : Int) with
        | some t =>
          (st.1 ++ [t.char], findChild nd.children (getTrieChar t.char))
        | none => (st.1, none))
    ([], some trie)

/-- Count of consecutive empty non-anchor cells left of the anchor. -/
def limitLeftFrom (b : Board) (anchors : List (Nat × Nat)) (r : Nat) : Nat → Nat
  | 0 => 0
  | k + 1 =>
    if (tileAt b (r : Int) (k : Int)).isSome then 0
    else if anchors.contains (r, k) then 0
    else 1 + limitLeftFrom b anchors r k

/-- Per-anchor expansion: replay an existing left prefix and extend right, or
grow a fresh left part bounded by the empty run. -/
def processAnchor (b : Board) (trie : TrieNode) (cc : Nat → Nat → Option (List Char))
    (anchors : List (Nat × Nat)) (trieRack : List Char) (dir : Dir) (r c : Nat) :
    List PlayerMove :=
  if 0 < c ∧ (tileAt b (r : Int) ((c : Int) - 1)).isSome then
    let start := findStart b r (c - 1)
    match replayPrefix b trie r start c with
    | (pfx, some nd) => extendRight b cc dir 16 r c pfx nd trieRack
    | (_, none) => []
  else
    leftPart b cc dir r c [] trie (limitLeftFrom b anchors r c) trieRack

/-- One direction pass of findBestMoves (the board is pre-transposed for the
vertical pass). -/
def findMovesInDirection (b : Board) (trie : TrieNode) (trieRack : List Char)
    (isBoardEmptyFlag : Bool) (dir : Dir) : List PlayerMove :=
  let cc := fun r c => crossCheckAt b trie r c
  let anchors := findAnchors b isBoardEmptyFlag
  ((List.range 15).map fun r =>
    ((anchors.filter fun a => a.1 = r).map fun a =>
      processAnchor b trie cc anchors trieRack dir r a.2).flatten).flatten

def transpose (b : Board) : Board := fun r c => b c r

/-- Authoritative re-scoring of a generated candidate against the original
board (crash of the scorer propagates). -/
def scoreMove (dict : Option TrieNode) (b : Board) (rack : List Char)
    (m : PlayerMove) : Option PlayerMove :=
  (calculateMoveScore dict b m.tiles rack m.row m.col m.direction).map fun res =>
    { m with score := some (if res.isValid then res.score else -1),
             isValid := some res.isValid, error := res.error }

abbrev MoveKey := Str × Int × Int × Dir

def moveKey (m : PlayerMove) : MoveKey := (m.word, m.row, m.col, m.direction)

/-- Map.set on an association list: overwrite in place, append fresh keys. -/
def setAssoc (k : MoveKey) (v : PlayerMove) :
    List (MoveKey × PlayerMove) → List (MoveKey × PlayerMove)
  | [] => [(k, v)]
  | (k', v') :: t => if k' = k then (k, v) :: t else (k', v') :: setAssoc k v t

/-- Deduplication step: keep one candidate per (word, row, col, direction),
preferring the higher score. -/
def dedupStep (acc : List (MoveKey × PlayerMove)) (m : PlayerMove) :
    List (MoveKey × PlayerMove) :=
  let k := moveKey m
  match acc.find? (fun p => p.1 = k) with
  | none => setAssoc k m acc
  | some p => if (p.2.score.getD 0) < (m.score.getD 0) then setAssoc k m acc else acc

/-- Stable sort by score descending (`(a,b) => (b.score||0) - (a.score||0)`). -/
def sortMoves (l : List PlayerMove) : List PlayerMove :=
  l.mergeSort fun a b => decide ((b.score.getD 0) ≤ (a.score.getD 0))

/-- findBestMoves from bestMoves: generate candidates in both directions via
anchors and cross-checks, re-score every candidate through
`calculateMoveScore` on the original board, keep the valid positive ones,
deduplicate, sort by score, truncate.  `some []` with no dictionary;
`none` propagates a scorer crash (unreachable for generated coordinates). -/
def findBestMoves (dict : Option TrieNode) (b : Board) (rack : List Char)
    (limit : Nat) : Option (List PlayerMove) :=
  match dict with
  | none => some []
  | some trie =>
    let effectiveLimit := if limit = 0 then 5000 else limit
    let isEmpty := boardIsEmpty b
    let trieRack := rack.map fun c => if c = '?' then '?' else getTrieChar c
    let moves := findMovesInDirection b trie trieRack isEmpty .H ++
                 findMovesInDirection (transpose b) trie trieRack isEmpty .V
    match moves.mapM (scoreMove dict b rack) with
    | none => none
    | some scored =>
      let filtered := scored.filter fun m =>
        (m.isValid.getD false) &&
        (match m.score with | some s => decide (0 < s) | none => false)
      let deduped := (filtered.foldl dedupStep []).map (·.2)
      some ((sortMoves deduped).take effectiveLimit)

/-! Dictionary loading lifecycle (loadDictionary / getTrie). -/

structure DictPayload where
  trie : Option TrieNode
  version : Option Str

structure DictState where
  trieInstance : Option TrieNode
  currentDictionaryName : Str
  currentDictionaryData : Option DictPayload

def dictNameDISC : Str := "DISC".toList

/-- Modelled from the spec: the embedded fallback DISC payload (module
`dictionaryData`, not among the sources); per the spec it is a well-formed
trie payload used when fetching DISC fails.  Its word content is irrelevant
to the properties proved here. -/
def fallbackDisc : DictPayload := { trie := some (.mk ' ' false []), version := none }

/-- Failure tail of loadDictionary: the old dictionary is kept; only a
never-loaded state is marked as errored. -/
def loadFailureState (st : DictState) : DictState :=
  if st.trieInstance.isNone then
    { st with currentDictionaryName := "ERROR".toList, currentDictionaryData := none }
  else st

/-- Payload resolution: the fetch result, falling back to the embedded DISC
data when fetching DISC failed. -/
def resolvePayload (name : Str) (fetched : Option DictPayload) : Option DictPayload :=
  match fetched with
  | some d => some d
  | none => if name = dictNameDISC then some fallbackDisc else none

/-- loadDictionary with the fetch outcome passed explicitly: no-op when the
requested dictionary is already active; a payload without a trie (or no
payload) is a failure that preserves the previous state; success replaces
the instance. -/
def loadDictionary (st : DictState) (name : Str) (fetched : Option DictPayload) :
    DictState :=
  if st.trieInstance.isSome ∧ st.currentDictionaryName = name then st
  else
    match resolvePayload name fetched with
    | none => loadFailureState st
    | some d =>
      match d.trie with
      | none => loadFailureState st
      | some t =>
        { trieInstance := some t, currentDictionaryName := name,
          currentDictionaryData := some d }

def getTrie (st : DictState) : Option TrieNode := st.trieInstance

/-- Condition under which loadDictionary takes its failure path. -/
def loadAttemptFails (st : DictState) (name : Str) (fetched : Option DictPayload) :
    Bool :=
  decide (¬(st.trieInstance.isSome = true ∧ st.currentDictionaryName = name)) &&
  (match resolvePayload name fetched with
   | none => true
   | some d => d.trie.isNone)

/-! Helper definitions used by the theorem statements. -/

/-- Validity flag of a scorer outcome (`false` also for a crash). -/
def resultIsValid (res? : Option ScoreResult) : Bool :=
  match res? with
  | some res => res.isValid
  | none => false

/-- Outcome carries the dictionary-rejection error. -/
def hasInvalidWordErr (res? : Option ScoreResult) : Bool :=
  match res? with
  | some res =>
    match res.error with
    | some (.invalidWord _) => true
    | _ => false
  | none => false

/-- Candidate places zero new tiles: every covered cell is already occupied. -/
def usesNoNewTiles (b : Board) (tiles : List Tile) (r c : Int) (dir : Dir) : Bool :=
  let dr : Int := if dir = .H then 0 else 1
  let dc : Int := if dir = .H then 1 else 0
  tiles.enum.all fun p => occupied b (r + (p.1 : Int) * dr) (c + (p.1 : Int) * dc)

/-- Independent validator verdict on a finder output: valid with a strictly
positive score. -/
def validPositive (dict : Option TrieNode) (b : Board) (rack : List Char)
    (m : PlayerMove) : Bool :=
  match calculateMoveScore dict b m.tiles rack m.row m.col m.direction with
  | some res => res.isValid && decide (0 < res.score)
  | none => false

/-- Board holding the single tile A on the center cell. -/
def boardCenterA : Board := fun r c =>
  if r = 7 ∧ c = 7 then { multiplier := .Normal, tile := some (createTile 'A') }
  else { multiplier := .Normal, tile := none }

/-- Board holding the single tile T at row 6, column 3. -/
def boardT63 : Board := fun r c =>
  if r = 6 ∧ c = 3 then { multiplier := .Normal, tile := some (createTile 'T') }
  else { multiplier := .Normal, tile := none }

/-- Trie containing exactly the word CASA. -/
def trieCASA : TrieNode :=
  .mk ' ' false [.mk 'C' false [.mk 'A' false [.mk 'S' false [.mk 'A' true []]]]]

/-- Definition following the claim's words (cross-word scoring): the new
tile's face value times its own cell's letter multiplier, plus the
unmultiplied face values of the pre-existing tiles in the perpendicular word,
the sum scaled by the new tile's own cell's word multiplier (not the main
word's compounded multiplier). -/
def specCrossContribution (b : Board) (dir : Dir) (r c : Int) (tileValue : Int)
    (mult : MultiplierType) : Int :=
  let cdr : Int := perpDr dir
  let cdc : Int := perpDc dir
  (tileValue * getMultiplierVal mult false +
    (sumRun b 16 (r - cdr) (c - cdc) (-cdr) (-cdc) +
     sumRun b 16 (r + cdr) (c + cdc) cdr cdc)) * getMultiplierVal mult true

/-- Definition following claim C10's words: canonical form of an input word —
uppercase, map `Ç` to `1`, strip combining diacritics, replace the digraph
spellings by `2`/`Q`/`3`, delete remaining `·` and `.` (no trimming). -/
def claimCanonical (w : Str) : Str :=
  removeDots (replaceNY (replaceQU (replaceLdigraphs
    (stripDiacritics ((w.map jsToUpper).map fun c => if c = 'Ç' then '1' else c)))))

/-- Definition following claim C10's words: the uppercased, diacritic-stripped
form of the input contains a Q not immediately followed by U. -/
def claimQReject (w : Str) : Bool := hasQnotU (stripDiacritics (w.map jsToUpper))

/-- Claim C10's description of validateWord on a loaded trie, as stated
(without trimming). -/
def specValidateWordClaim (trie : TrieNode) (w : Str) : Bool :=
  if claimQReject w then false else lookupFrom trie (claimCanonical w)

/-- Claim C10 amended: the input is first trimmed of surrounding whitespace. -/
def specValidateWordTrimmed (trie : TrieNode) (w : Str) : Bool :=
  if claimQReject (jsTrim w) then false else lookupFrom trie (claimCanonical (jsTrim w))

/-- Input characters of the claim C7 round-trip domain: words composed of
digraph/ligature spellings and plain letters only use ASCII letters, the
cedilla letters, and the ligature separators. -/
def okChars : List Char :=
  "ABCDEFGHIJKLMNOPQRSTUVWXYZabcdefghijklmnopqrstuvwxyz".toList ++ ['Ç', 'ç', '·', '.', '-']

def okChar (c : Char) : Bool := decide (c ∈ okChars)

/-- The round-trip form under scrutiny in claim C7: parse, render the tiles'
internal chars back to display form, parse again. -/
def canonOf (w : Str) : Str := internalToDisplayWord (tilesChars (parseInputWord w))

/-- Relation identifying characters interchangeable for the Q-not-before-U
test: they agree on being `Q` and on being `U`. -/
def qRel (a b : Char) : Prop := (a = 'Q' ↔ b = 'Q') ∧ (a = 'U' ↔ b = 'U')

/-! Theorems. -/

/-- Claim C6: every tile produced by the tile model with `isBlank = true` has
point value 0, regardless of the letter it represents, so a blank never adds
to the main-word or cross-word totals beyond multiplier-scaled zero. -/
theorem claim6_blank_tile_value_zero (c : Char)
    (h : (createTile c).isBlank = true) : (createTile c).value = 0 := by
  by_cases hc : c = '?'
  · subst hc; decide
  · unfold createTile at h ⊢
    rw [if_neg hc] at h ⊢
    dsimp only at h ⊢
    exact if_pos (of_decide_eq_true h)

/-- Witness for C6 at the blank letter `a`. -/
theorem claim6_blank_tile_value_zero_witness :
    (createTile 'a').isBlank = true ∧ (createTile 'a').value = 0 :=
  ⟨by decide, claim6_blank_tile_value_zero 'a' (by decide)⟩

/-- Claim C1 counterexample: a candidate whose single tile coincides with the
matching tile already on the board — zero new tiles placed — is accepted by
calculateMoveScore as valid with a positive score, contradicting the claim
that a candidate using zero new tiles is never valid. -/
theorem claim1_counterexample :
    usesNoNewTiles boardCenterA [createTile 'A'] 7 7 .H = true ∧
    calculateMoveScore none boardCenterA [createTile 'A'] [] 7 7 .H =
      some { score := 1, isValid := true, error := none } := by decide

/-- Claim C1 amended: a candidate with an empty tile list is never valid (on
an empty board it misses the center, otherwise it is not connected); a
nonempty candidate lying entirely on matching occupied cells can be valid. -/
theorem claim1_amended (dict : Option TrieNode) (b : Board) (rack : List Char)
    (r c : Int) (d : Dir) :
    resultIsValid (calculateMoveScore dict b [] rack r c d) = false := by
  simp only [calculateMoveScore, scoreLoopOf, List.enum_nil, scoreLoop,
    initialState, finishScore, resultIsValid]
  split <;> simp

/-- Claim C5 exhibit: a negative start coordinate slips past the `>= 15`
bounds check and dereferences a nonexistent row — a crash (`none`), not the
structured OutOfBounds rejection the claim describes; coordinates beyond 14
do take the structured OutOfBounds path. -/
theorem claim5_negative_crash :
    calculateMoveScore none emptyBoard [createTile 'A'] ['A'] (-1) 0 .H = none ∧
    calculateMoveScore none emptyBoard [createTile 'A'] ['A'] 15 0 .H =
      some { score := 0, isValid := false, error := some .outOfBounds } := by decide

/-- Claim C9: when a load attempt fails after a dictionary was previously
loaded, the previously loaded trie instance remains the active dictionary. -/
theorem claim9_failed_load_keeps_trie (st : DictState) (name : Str)
    (fetched : Option DictPayload) (t : TrieNode)
    (hload : st.trieInstance = some t)
    (hfail : loadAttemptFails st name fetched = true) :
    getTrie (loadDictionary st name fetched) = some t := by
  unfold loadAttemptFails at hfail
  rw [Bool.and_eq_true] at hfail
  obtain ⟨h1, h2⟩ := hfail
  rw [decide_eq_true_iff] at h1
  unfold loadDictionary getTrie
  rw [if_neg h1]
  cases hrp : resolvePayload name fetched with
  | none => simp [loadFailureState, hload]
  | some d =>
    rw [hrp] at h2
    dsimp only at h2 ⊢
    rw [Option.isNone_iff_eq_none] at h2
    rw [h2]
    simp [loadFailureState, hload]

/-- Witness for C9: a loaded DISC state survives a failed LEXIMOTS fetch. -/
theorem claim9_failed_load_keeps_trie_witness :
    getTrie (loadDictionary
      { trieInstance := some (.mk 'A' true []), currentDictionaryName := dictNameDISC,
        currentDictionaryData := none }
      "LEXIMOTS".toList none) = some (.mk 'A' true []) :=
  claim9_failed_load_keeps_trie _ _ _ _ rfl (by decide)

/-- With no dictionary, cross-word handling never flips the validity flags
(validateWord is fail-open). -/
theorem applyCross_none_preserves (b : Board) (m : List ((Int × Int) × Tile))
    (len : Nat) (dir : Dir) (r c lv wm : Int) (st : LoopState) :
    (applyCross none b m len dir r c lv wm st).allWordsValid = st.allWordsValid ∧
    (applyCross none b m len dir r c lv wm st).invalidWordError = st.invalidWordError := by
  unfold applyCross
  cases crossWordData b m len dir r c lv wm with
  | none => exact ⟨rfl, rfl⟩
  | some p =>
    obtain ⟨w, contrib⟩ := p
    simp [validateWord]

/-- With no dictionary, one loop step never produces the InvalidWord error and
keeps the validity flags clean. -/
theorem processTile_none_inv (b : Board) (m : List ((Int × Int) × Tile))
    (len : Nat) (dir : Dir) (r c : Int) (tile : Tile) (st : LoopState)
    (hA : st.allWordsValid = true) (hE : st.invalidWordError = none) :
    match processTile none b m len dir r c tile st with
    | some (.ok st') => st'.allWordsValid = true ∧ st'.invalidWordError = none
    | some (.error res) => hasInvalidWordErr (some res) = false
    | none => True := by
  unfold processTile
  by_cases hb : 15 ≤ r ∨ 15 ≤ c
  · rw [if_pos hb]
    simp [hasInvalidWordErr]
  · rw [if_neg hb]
    set st1 := (if r = 7 ∧ c = 7 then { st with touchesCenter := true } else st) with hst1def
    have hA1 : st1.allWordsValid = true := by rw [hst1def]; split <;> simp [hA]
    have hE1 : st1.invalidWordError = none := by rw [hst1def]; split <;> simp [hE]
    cases hcell : getCell? b r c with
    | none => exact trivial
    | some cell =>
      dsimp only
      cases ht : cell.tile with
      | some bt =>
        dsimp only
        by_cases hx : jsToUpper bt.char = jsToUpper tile.char
        · rw [if_neg (not_not_intro hx)]
          exact ⟨hA1, hE1⟩
        · rw [if_pos hx]
          simp [hasInvalidWordErr]
      | none =>
        dsimp only
        set st2 :=
          (if occupied b (r - 1) c ∨ occupied b (r + 1) c ∨
              occupied b r (c - 1) ∨ occupied b r (c + 1) then
            { st1 with touchesExisting := true } else st1) with hst2def
        have hA2 : st2.allWordsValid = true := by rw [hst2def]; split <;> simp [hA1]
        have hE2 : st2.invalidWordError = none := by rw [hst2def]; split <;> simp [hE1]
        have hplace : ∀ rack' : List Char,
            (applyCross none b m len dir r c
              (tile.value * getMultiplierVal cell.multiplier false)
              (getMultiplierVal cell.multiplier true)
              { st2 with rackAvailable := rack',
                         tilesUsedFromRack := st2.tilesUsedFromRack + 1,
                         mainWordScore := st2.mainWordScore +
                           tile.value * getMultiplierVal cell.multiplier false,
                         mainWordMultiplier := st2.mainWordMultiplier *
                           getMultiplierVal cell.multiplier true }).allWordsValid = true ∧
            (applyCross none b m len dir r c
              (tile.value * getMultiplierVal cell.multiplier false)
              (getMultiplierVal cell.multiplier true)
              { st2 with rackAvailable := rack',
                         tilesUsedFromRack := st2.tilesUsedFromRack + 1,
                         mainWordScore := st2.mainWordScore +
                           tile.value * getMultiplierVal cell.multiplier false,
                         mainWordMultiplier := st2.mainWordMultiplier *
                           getMultiplierVal cell.multiplier true }).invalidWordError = none := by
          intro rack'
          rw [(applyCross_none_preserves _ _ _ _ _ _ _ _ _).1,
              (applyCross_none_preserves _ _ _ _ _ _ _ _ _).2]
          exact ⟨hA2, hE2⟩
        cases hr1 : removeFirst st2.rackAvailable (jsToUpper tile.char) with
        | some rack' => exact hplace rack'
        | none =>
          cases hr2 : removeFirst st2.rackAvailable '?' with
          | some rack' => exact hplace rack'
          | none =>
            dsimp only
            by_cases hbl : tile.isBlank = true
            · rw [if_pos hbl]; simp [hasInvalidWordErr]
            · rw [if_neg hbl]; simp [hasInvalidWordErr]

/-- With no dictionary, the whole loop never produces the InvalidWord error. -/
theorem scoreLoop_none_inv (b : Board) (m : List ((Int × Int) × Tile))
    (len : Nat) (dir : Dir) (sr sc dr dc : Int) :
    ∀ (l : List (Nat × Tile)) (st : LoopState),
      st.allWordsValid = true → st.invalidWordError = none →
      match scoreLoop none b m len dir sr sc dr dc l st with
      | some (.ok st') => st'.allWordsValid = true ∧ st'.invalidWordError = none
      | some (.error res) => hasInvalidWordErr (some res) = false
      | none => True
  | [], st, hA, hE => by
    simpa [scoreLoop] using ⟨hA, hE⟩
  | (i, tile) :: rest, st, hA, hE => by
    have h := processTile_none_inv b m len dir (sr + (i : Int) * dr)
      (sc + (i : Int) * dc) tile st hA hE
    unfold scoreLoop
    cases hp : processTile none b m len dir (sr + (i : Int) * dr)
        (sc + (i : Int) * dc) tile st with
    | none => exact trivial
    | some e =>
      rw [hp] at h
      cases e with
      | error res => exact h
      | ok st' =>
        dsimp only at h ⊢
        exact scoreLoop_none_inv b m len dir sr sc dr dc rest st' h.1 h.2

/-- With no dictionary, main-word validation cannot fail up front. -/
theorem initialState_none (b : Board) (m : List ((Int × Int) × Tile))
    (len : Nat) (rack : List Char) (sr sc dr dc : Int) :
    (initialState none b m len rack sr sc dr dc).allWordsValid = true ∧
    (initialState none b m len rack sr sc dr dc).invalidWordError = none := by
  simp [initialState, validateWord]

/-- A clean validity flag rules out the InvalidWord error in the final
result. -/
theorem finishScore_noInvalid (isEmpty : Bool) (numTiles : Nat) (st : LoopState)
    (hA : st.allWordsValid = true) :
    hasInvalidWordErr (some (finishScore isEmpty numTiles st)) = false := by
  unfold finishScore finishWords
  by_cases h1 : isEmpty = true
  · rw [if_pos h1]
    by_cases h2 : st.touchesCenter = true
    · rw [if_neg (not_not_intro h2)]
      by_cases h3 : numTiles < 2
      · rw [if_pos h3]; rfl
      · rw [if_neg h3, if_neg (not_not_intro hA)]; rfl
    · rw [if_pos h2]; rfl
  · rw [if_neg h1]
    by_cases h4 : st.touchesExisting = true
    · rw [if_neg (not_not_intro h4), if_neg (not_not_intro hA)]; rfl
    · rw [if_pos h4]; rfl

/-- Claim C8: with no dictionary loaded the two components fail in opposite
directions — calculateMoveScore never rejects with the InvalidWord error
(every word is treated as dictionary-valid), while findBestMoves returns the
empty list for every board and rack. -/
theorem claim8_no_dictionary_asymmetry :
    (∀ (b : Board) (tiles : List Tile) (rack : List Char) (r c : Int) (d : Dir),
        hasInvalidWordErr (calculateMoveScore none b tiles rack r c d) = false) ∧
    (∀ (b : Board) (rack : List Char) (limit : Nat),
        findBestMoves none b rack limit = some []) := by
  constructor
  · intro b tiles rack r c d
    unfold calculateMoveScore scoreLoopOf
    have hinit := initialState_none b
      (buildNewTilesMap tiles r c (if d = .H then 0 else 1) (if d = .H then 1 else 0))
      tiles.length rack r c (if d = .H then 0 else 1) (if d = .H then 1 else 0)
    have h := scoreLoop_none_inv b
      (buildNewTilesMap tiles r c (if d = .H then 0 else 1) (if d = .H then 1 else 0))
      tiles.length d r c (if d = .H then 0 else 1) (if d = .H then 1 else 0)
      tiles.enum _ hinit.1 hinit.2
    cases hs : scoreLoop none b
        (buildNewTilesMap tiles r c (if d = .H then 0 else 1) (if d = .H then 1 else 0))
        tiles.length d r c (if d = .H then 0 else 1) (if d = .H then 1 else 0)
        tiles.enum (initialState none b
          (buildNewTilesMap tiles r c (if d = .H then 0 else 1) (if d = .H then 1 else 0))
          tiles.length rack r c (if d = .H then 0 else 1) (if d = .H then 1 else 0)) with
    | none => simp [hasInvalidWordErr]
    | some e =>
      rw [hs] at h
      cases e with
      | error res => simpa using h
      | ok st =>
        dsimp only at h ⊢
        exact finishScore_noInvalid _ _ _ h.1
  · intro b rack limit
    rfl

/-- Claim C4 counterexample: on an empty board, a one-letter candidate that
does not cover the center is rejected with MissingCenter, not with the
TooShortFirstMove error the claim assigns to candidates of fewer than 2
letters (the center check runs first). -/
theorem claim4_counterexample :
    boardIsEmpty emptyBoard = true ∧
    ([createTile 'A'] : List Tile).length < 2 ∧
    calculateMoveScore none emptyBoard [createTile 'A'] ['A'] 2 3 .H =
      some { score := 0, isValid := false, error := some .missingCenter } := by decide

/-- Claim C4 amended: provided the per-tile pass succeeds (no out-of-bounds,
cell-conflict or rack error), on an empty board a candidate not covering the
center is rejected with MissingCenter; one covering the center with fewer
than 2 tiles is rejected with TooShortFirstMove; an accepted candidate covers
the center and has at least 2 tiles; and on a non-empty board a candidate in
which no tile touches an existing tile is rejected with NotConnected. -/
theorem claim4_amended (dict : Option TrieNode) (b : Board) (tiles : List Tile)
    (rack : List Char) (r c : Int) (d : Dir) (st : LoopState)
    (hloop : scoreLoopOf dict b tiles rack r c d = some (.ok st)) :
    (boardIsEmpty b = true →
       (st.touchesCenter = false →
          calculateMoveScore dict b tiles rack r c d =
            some { score := 0, isValid := false, error := some .missingCenter }) ∧
       (st.touchesCenter = true → tiles.length < 2 →
          calculateMoveScore dict b tiles rack r c d =
            some { score := 0, isValid := false, error := some .tooShortFirstMove }) ∧
       (resultIsValid (calculateMoveScore dict b tiles rack r c d) = true →
          st.touchesCenter = true ∧ 2 ≤ tiles.length)) ∧
    (boardIsEmpty b = false → st.touchesExisting = false →
       calculateMoveScore dict b tiles rack r c d =
         some { score := 0, isValid := false, error := some .notConnected }) := by
  unfold calculateMoveScore
  rw [hloop]
  constructor
  · intro hEmp
    rw [hEmp]
    refine ⟨?_, ?_, ?_⟩
    · intro hTC
      simp [finishScore, hTC]
    · intro hTC hLen
      simp [finishScore, hTC, hLen]
    · intro hvalid
      by_cases hTC : st.touchesCenter = true
      · by_cases hLen : 2 ≤ tiles.length
        · exact ⟨hTC, hLen⟩
        · exfalso
          have hL2 : tiles.length < 2 := by omega
          simp [finishScore, hTC, hL2, resultIsValid] at hvalid
      · exfalso
        have hTCf : st.touchesCenter = false := by
          cases htc2 : st.touchesCenter
          · rfl
          · exact absurd htc2 hTC
        simp [finishScore, hTCf, resultIsValid] at hvalid
  · intro hEmp hTE
    rw [hEmp]
    simp [finishScore, hTE]

/-- Witness for C4 at a concrete instance: empty board, one-letter candidate
off center, sufficient rack — rejected with MissingCenter. -/
theorem claim4_amended_witness :
    calculateMoveScore none emptyBoard [createTile 'A'] ['A'] 0 0 .H =
      some { score := 0, isValid := false, error := some .missingCenter } :=
  ((claim4_amended none emptyBoard [createTile 'A'] ['A'] 0 0 .H
      { totalScore := 0, mainWordScore := 1, mainWordMultiplier := 1,
        tilesUsedFromRack := 1, rackAvailable := [], allWordsValid := true,
        invalidWordError := none, touchesExisting := false, touchesCenter := false }
      rfl).1 (by decide)).1 rfl

/-- Claim C3: for a newly placed tile with an existing board tile adjacent
perpendicular to the play direction, the cross word is the perpendicular
reconstruction through that cell, its contribution equals the new tile's face
value times its own cell's letter multiplier plus the unmultiplied face
values of the pre-existing tiles of that word, the sum scaled by the tile's
own cell's word multiplier (not the main word's compounded multiplier); the
contribution is added to the running total independently, and the cross word
is validated against the dictionary (conjoined into the validity flag). -/
theorem claim3_cross_word_scoring (dict : Option TrieNode) (b : Board)
    (m : List ((Int × Int) × Tile)) (len : Nat) (dir : Dir) (r c : Int)
    (tile : Tile) (mult : MultiplierType) (st : LoopState) (w : Str) (s : Int)
    (hcross : crossWordData b m len dir r c
        (tile.value * getMultiplierVal mult false) (getMultiplierVal mult true) =
      some (w, s)) :
    s = specCrossContribution b dir r c tile.value mult ∧
    w = getFullWordString b m len r c (perpDr dir) (perpDc dir) ∧
    (applyCross dict b m len dir r c (tile.value * getMultiplierVal mult false)
        (getMultiplierVal mult true) st).totalScore = st.totalScore + s ∧
    (applyCross dict b m len dir r c (tile.value * getMultiplierVal mult false)
        (getMultiplierVal mult true) st).allWordsValid =
      (st.allWordsValid && validateWord dict w) := by
  have hc2 := hcross
  simp only [crossWordData] at hcross
  split at hcross
  · simp only [Option.some.injEq, Prod.mk.injEq] at hcross
    obtain ⟨hw, hs⟩ := hcross
    refine ⟨?_, hw.symm, ?_, ?_⟩
    · rw [← hs]
      unfold specCrossContribution
      ring
    · unfold applyCross
      rw [hc2]
      dsimp only
      split <;> rfl
    · unfold applyCross
      rw [hc2]
      dsimp only
      by_cases hv : validateWord dict w = true
      · rw [if_pos hv, hv, Bool.and_true]
      · have hvf : validateWord dict w = false := by
          cases h2 : validateWord dict w
          · rfl
          · exact absurd h2 hv
        rw [if_neg hv, hvf, Bool.and_false]
  · exact absurd hcross (by simp)

/-- Witness for C3: board with T at (6,3), new tile A at (7,3) horizontal —
cross word TA, contribution (1·1 + 1)·1 = 2 added to the total. -/
theorem claim3_cross_word_scoring_witness :
    (2 : Int) = specCrossContribution boardT63 .H 7 3 (createTile 'A').value .Normal ∧
    (['T', 'A'] : Str) = getFullWordString boardT63 [((7, 3), createTile 'A')] 1 7 3 1 0 ∧
    (applyCross none boardT63 [((7, 3), createTile 'A')] 1 .H 7 3
        ((createTile 'A').value * getMultiplierVal .Normal false)
        (getMultiplierVal .Normal true)
        { totalScore := 0, mainWordScore := 0, mainWordMultiplier := 1,
          tilesUsedFromRack := 0, rackAvailable := [], allWordsValid := true,
          invalidWordError := none, touchesExisting := false,
          touchesCenter := false }).totalScore = 0 + 2 ∧
    (applyCross none boardT63 [((7, 3), createTile 'A')] 1 .H 7 3
        ((createTile 'A').value * getMultiplierVal .Normal false)
        (getMultiplierVal .Normal true)
        { totalScore := 0, mainWordScore := 0, mainWordMultiplier := 1,
          tilesUsedFromRack := 0, rackAvailable := [], allWordsValid := true,
          invalidWordError := none, touchesExisting := false,
          touchesCenter := false }).allWordsValid =
      (true && validateWord none ['T', 'A']) := by
  have h := claim3_cross_word_scoring none boardT63 [((7, 3), createTile 'A')] 1 .H 7 3
    (createTile 'A') .Normal
    { totalScore := 0, mainWordScore := 0, mainWordMultiplier := 1,
      tilesUsedFromRack := 0, rackAvailable := [], allWordsValid := true,
      invalidWordError := none, touchesExisting := false, touchesCenter := false }
    ['T', 'A'] 2 (by decide)
  exact ⟨h.1, h.2.1, h.2.2.1, h.2.2.2⟩

/-- Elements produced by a successful Option-mapM come from applying the
function to elements of the input list. -/
theorem mapM_option_mem {α β : Type} (f : α → Option β) :
    ∀ (l : List α) (l' : List β), l.mapM f = some l' →
      ∀ x ∈ l', ∃ a ∈ l, f a = some x := by
  intro l
  induction l with
  | nil =>
    intro l' h x hx
    rw [List.mapM_nil] at h
    simp only [pure, Option.some.injEq] at h
    subst h
    simp at hx
  | cons a t ih =>
    intro l' h x hx
    rw [List.mapM_cons] at h
    cases hfa : f a with
    | none => rw [hfa] at h; simp at h
    | some b0 =>
      rw [hfa] at h
      cases hmt : t.mapM f with
      | none => rw [hmt] at h; simp at h
      | some bs =>
        rw [hmt] at h
        simp only [Option.bind_eq_bind, Option.some_bind, pure, Option.some.injEq] at h
        subst h
        rcases List.mem_cons.mp hx with rfl | hx'
        · exact ⟨a, List.mem_cons_self a t, hfa⟩
        · obtain ⟨a', ha', hfa'⟩ := ih bs hmt x hx'
          exact ⟨a', List.mem_cons_of_mem a ha', hfa'⟩

/-- Values of a Map.set step come from the new entry or the old map. -/
theorem setAssoc_mem (k : MoveKey) (v : PlayerMove) :
    ∀ (acc : List (MoveKey × PlayerMove)) (p : MoveKey × PlayerMove),
      p ∈ setAssoc k v acc → p.2 = v ∨ p ∈ acc := by
  intro acc
  induction acc with
  | nil =>
    intro p hp
    simp only [setAssoc] at hp
    rcases List.mem_singleton.mp hp with rfl
    exact Or.inl rfl
  | cons q t ih =>
    intro p hp
    simp only [setAssoc] at hp
    split at hp
    · rcases List.mem_cons.mp hp with rfl | hp'
      · exact Or.inl rfl
      · exact Or.inr (List.mem_cons_of_mem q hp')
    · rcases List.mem_cons.mp hp with rfl | hp'
      · exact Or.inr (List.mem_cons_self q t)
      · rcases ih p hp' with h | h
        · exact Or.inl h
        · exact Or.inr (List.mem_cons_of_mem q h)

/-- Values of one deduplication step come from the new move or the old map. -/
theorem dedupStep_mem (acc : List (MoveKey × PlayerMove)) (m : PlayerMove)
    (p : MoveKey × PlayerMove) (hp : p ∈ dedupStep acc m) : p.2 = m ∨ p ∈ acc := by
  simp only [dedupStep] at hp
  cases hf : (acc.find? (fun q => q.1 = moveKey m)) with
  | none =>
    rw [hf] at hp
    exact setAssoc_mem _ _ acc p hp
  | some q =>
    rw [hf] at hp
    dsimp only at hp
    split at hp
    · exact setAssoc_mem _ _ acc p hp
    · exact Or.inr hp

/-- Values surviving the whole deduplication fold come from the input list. -/
theorem dedupFold_mem :
    ∀ (l : List PlayerMove) (acc : List (MoveKey × PlayerMove))
      (p : MoveKey × PlayerMove), p ∈ l.foldl dedupStep acc → p.2 ∈ l ∨ p ∈ acc := by
  intro l
  induction l with
  | nil => intro acc p hp; exact Or.inr hp
  | cons m t ih =>
    intro acc p hp
    rw [List.foldl_cons] at hp
    rcases ih (dedupStep acc m) p hp with h | h
    · exact Or.inl (List.mem_cons_of_mem m h)
    · rcases dedupStep_mem acc m p h with h2 | h2
      · exact Or.inl (h2 ▸ List.mem_cons_self m t)
      · exact Or.inr h2

/-- Claim C2: every candidate returned by findBestMoves is one the validator,
called independently on the same original board and rack with that
candidate's tiles, row, col and direction, marks valid with a strictly
positive score; invalid or non-positive candidates never appear. -/
theorem claim2_finder_outputs_validated (dict : Option TrieNode) (b : Board)
    (rack : List Char) (limit : Nat) :
    Option.all (fun l => l.all (validPositive dict b rack))
      (findBestMoves dict b rack limit) = true := by
  cases dict with
  | none => rfl
  | some trie =>
    unfold findBestMoves
    dsimp only
    cases hsm : (findMovesInDirection b trie
          (rack.map fun c => if c = '?' then '?' else getTrieChar c) (boardIsEmpty b) .H ++
        findMovesInDirection (transpose b) trie
          (rack.map fun c => if c = '?' then '?' else getTrieChar c) (boardIsEmpty b) .V).mapM
        (scoreMove (some trie) b rack) with
    | none => rfl
    | some scored =>
      dsimp only
      rw [Option.all_some, List.all_eq_true]
      intro m hm
      have h1 : m ∈ sortMoves ((scored.filter fun m =>
          (m.isValid.getD false) &&
          (match m.score with | some s => decide (0 < s) | none => false)).foldl
            dedupStep [] |>.map (·.2)) := List.take_subset _ _ hm
      have h2 := List.mem_mergeSort.mp h1
      obtain ⟨p, hp, rfl⟩ := List.mem_map.mp h2
      have h3 := dedupFold_mem _ [] p hp
      simp only [List.not_mem_nil, or_false] at h3
      have h4 := List.mem_filter.mp h3
      obtain ⟨a, _, hfa⟩ := mapM_option_mem _ _ scored hsm p.2 h4.1
      unfold scoreMove at hfa
      cases hcalc : calculateMoveScore (some trie) b a.tiles rack a.row a.col a.direction with
      | none => rw [hcalc] at hfa; simp at hfa
      | some res =>
        rw [hcalc] at hfa
        simp only [Option.map_some', Option.some.injEq] at hfa
        rw [← hfa] at h4 ⊢
        unfold validPositive
        dsimp only at h4 ⊢
        rw [hcalc]
        have h5 := h4.2
        simp only [Option.getD_some] at h5
        rw [Bool.and_eq_true] at h5
        obtain ⟨hval, hpos⟩ := h5
        dsimp only
        rw [hval, Bool.true_and]
        rw [hval] at hpos
        simpa using hpos

/-- The Q-not-before-U test only looks at the positions of Q and U. -/
theorem hasQnotU_congr : ∀ (v v' : Str), List.Forall₂ qRel v v' →
    hasQnotU v = hasQnotU v'
  | [], _, h => by cases h; rfl
  | _ :: _, [], h => by cases h
  | a :: t, b :: t', h => by
    cases h with
    | cons hab htail =>
      cases t with
      | nil =>
        cases htail
        show decide (a = 'Q') = decide (b = 'Q')
        rw [decide_eq_decide]
        exact hab.1
      | cons c t2 =>
        cases htail with
        | cons hcd htail2 =>
          have IH := hasQnotU_congr (c :: t2) _ (List.Forall₂.cons hcd htail2)
          exact if_congr (and_congr hab.1 (not_congr hcd.2)) rfl IH

/-- Protecting `Ç` as `1` before stripping diacritics (instead of letting it
decompose to `C`) does not move any Q or U. -/
theorem strip_cedilla_forall2 : ∀ u : Str,
    List.Forall₂ qRel
      (stripDiacritics (u.map fun c => if c = 'Ç' then '1' else c))
      (stripDiacritics u)
  | [] => List.Forall₂.nil
  | c :: t => by
    have IH := strip_cedilla_forall2 t
    by_cases hc : c = 'Ç'
    · subst hc
      simp only [stripDiacritics, List.map_cons, List.flatten_cons, if_pos rfl] at *
      exact List.Forall₂.cons ⟨by decide, by decide⟩ IH
    · simp only [stripDiacritics, List.map_cons, List.flatten_cons, if_neg hc] at *
      exact List.rel_append
        (List.forall₂_same.mpr fun x _ => ⟨Iff.rfl, Iff.rfl⟩) IH

/-- Claim C10 counterexample: the claim omits the trim the code performs; on
the input `" CASA"` with a trie containing CASA, validateWord accepts (it
trims, then looks up CASA) while the claim's described pipeline keeps the
leading space in the canonical form and would reject. -/
theorem claim10_counterexample :
    validateWord (some trieCASA) (' ' :: "CASA".toList) = true ∧
    specValidateWordClaim trieCASA (' ' :: "CASA".toList) = false := by decide

/-- Claim C10 amended: validateWord first trims surrounding whitespace; it
then returns false whenever the uppercased, diacritic-stripped form of the
trimmed input has a Q not immediately followed by U, and otherwise returns
the trie membership of the canonical form (uppercase, `Ç` to `1`, strip
diacritics, digraphs to `2`/`Q`/`3`, drop leftover dots). -/
theorem claim10_amended (trie : TrieNode) (w : Str) :
    validateWord (some trie) w = specValidateWordTrimmed trie w := by
  unfold validateWord specValidateWordTrimmed claimQReject claimCanonical
  dsimp only
  rw [hasQnotU_congr _ _ (strip_cedilla_forall2 ((jsTrim w).map jsToUpper))]

/-- Transfer of a decidable fact over the claim C7 character domain. -/
theorem okChar_all (P : Char → Bool) (hall : okChars.all P = true) (c : Char)
    (hc : okChar c = true) : P c = true :=
  List.all_eq_true.mp hall c (of_decide_eq_true hc)

/-- Domain characters are never internal digraph codes. -/
theorem okChar_rev (c : Char) (hc : okChar c = true) : REVERSE_DIGRAPH_MAP c = none :=
  Option.isNone_iff_eq_none.mp
    (okChar_all (fun c => (REVERSE_DIGRAPH_MAP c).isNone) (by decide) c hc)

theorem createTile_char (a : Char) : (createTile a).char = a := by
  unfold createTile
  by_cases h : a = '?'
  · simp [h]
  · rw [if_neg h]

theorem internalToDisplayWord_cons (c : Char) (cs : Str) :
    internalToDisplayWord (c :: cs) =
      (REVERSE_DIGRAPH_MAP c).getD [c] ++ internalToDisplayWord cs := by
  simp [internalToDisplayWord]

theorem lThree_decomp (a b c : Char) (h : lThree a b c = true) :
    jsToUpper a = 'L' ∧
    (jsToUpper b = '·' ∨ jsToUpper b = '.' ∨ jsToUpper b = '-') ∧
    jsToUpper c = 'L' := by
  rcases of_decide_eq_true h with h1 | h1 | h1 <;>
    · injection h1 with e1 h2
      injection h2 with e2 h3
      injection h3 with e3 _
      exact ⟨e1, by simp [e2], e3⟩

theorem lThree_build (a b c : Char) (h1 : jsToUpper a = 'L')
    (h2 : jsToUpper b = '·' ∨ jsToUpper b = '.' ∨ jsToUpper b = '-')
    (h3 : jsToUpper c = 'L') : lThree a b c = true := by
  apply decide_eq_true
  rcases h2 with h2 | h2 | h2
  · exact Or.inl (by rw [h1, h2, h3])
  · exact Or.inr (Or.inl (by rw [h1, h2, h3]))
  · exact Or.inr (Or.inr (by rw [h1, h2, h3]))

theorem lThree_false_first (a b c : Char) (hL : jsToUpper a ≠ 'L') :
    lThree a b c = false := by
  apply decide_eq_false
  rintro (h | h | h) <;> (injection h with e _; exact hL e)

theorem quNy_none_first (a b : Char) (hQ : jsToUpper a ≠ 'Q') (hN : jsToUpper a ≠ 'N') :
    quNy a b = none := by
  unfold quNy
  rw [if_neg (by simp [hQ]), if_neg (by simp [hN])]

theorem quNy_eq_some (a b m : Char) (h : quNy a b = some m) :
    (jsToUpper a = 'Q' ∧ jsToUpper b = 'U' ∧ m = 'Û') ∨
    (jsToUpper a = 'N' ∧ jsToUpper b = 'Y' ∧ m = 'Ý') := by
  unfold quNy at h
  split at h
  · rename_i he
    injection he with e1 h2
    injection h2 with e2 _
    exact Or.inl ⟨e1, e2, (Option.some.injEq _ _).mp h |>.symm⟩
  · split at h
    · rename_i he
      injection he with e1 h2
      injection h2 with e2 _
      exact Or.inr ⟨e1, e2, (Option.some.injEq _ _).mp h |>.symm⟩
    · exact absurd h (by simp)

theorem quNy_build_NY (a b : Char) (h1 : jsToUpper a = 'N') (h2 : jsToUpper b = 'Y') :
    quNy a b = some 'Ý' := by
  unfold quNy
  rw [if_neg (by simp [h1]), if_pos (by rw [h1, h2])]

/-- A character whose uppercase is none of L, Q, N always tokenizes as a
single fallback tile. -/
theorem parse_cons_fallback (x : Char) (U : Str)
    (hL : jsToUpper x ≠ 'L') (hQ : jsToUpper x ≠ 'Q') (hN : jsToUpper x ≠ 'N') :
    parseInputWord (x :: U) = createTile x :: parseInputWord U := by
  cases U with
  | nil => simp [parseInputWord, hQ]
  | cons u0 U2 =>
    cases U2 with
    | nil =>
      simp [parseInputWord, quNy_none_first x u0 hQ hN, hQ]
    | cons u1 U3 =>
      simp [parseInputWord, lThree_false_first x u0 u1 hL,
        quNy_none_first x u0 hQ hN, hQ]

/-- QU at the head always tokenizes as the non-blank QU tile. -/
theorem parse_QU (U : Str) :
    parseInputWord ('Q' :: 'U' :: U) = createTile 'Û' :: parseInputWord U := by
  cases U with
  | nil => rfl
  | cons u0 U2 =>
    simp [parseInputWord, lThree_false_first 'Q' 'U' u0 (by decide),
      show quNy 'Q' 'U' = some 'Û' from rfl, show isLowerJs 'Q' = false from rfl]

/-- NY at the head always tokenizes as the non-blank NY tile. -/
theorem parse_NY (U : Str) :
    parseInputWord ('N' :: 'Y' :: U) = createTile 'Ý' :: parseInputWord U := by
  cases U with
  | nil => rfl
  | cons u0 U2 =>
    simp [parseInputWord, lThree_false_first 'N' 'Y' u0 (by decide),
      show quNy 'N' 'Y' = some 'Ý' from rfl, show isLowerJs 'N' = false from rfl]

/-- The canonical L·L spelling at the head always tokenizes as the non-blank
doubled-L tile. -/
theorem parse_LL (U : Str) :
    parseInputWord ('L' :: '·' :: 'L' :: U) = createTile 'Ł' :: parseInputWord U := by
  simp [parseInputWord, show lThree 'L' '·' 'L' = true from rfl,
    show isLowerJs 'L' = false from rfl]

/-- Head characterization of the round-tripped form: over the claim C7
character domain, if the re-rendered string starts with a Y-like, L-like or
separator character, the original string already did (separators moreover
re-render in place, exposing the tail). -/
theorem canon_head_cases (r0 : Char) (r' : Str)
    (hok : (r0 :: r').all okChar = true) :
    ∃ u0 u', canonOf (r0 :: r') = u0 :: u' ∧
      (jsToUpper u0 = 'Y' → jsToUpper r0 = 'Y') ∧
      ((jsToUpper u0 = '·' ∨ jsToUpper u0 = '.' ∨ jsToUpper u0 = '-') →
        u0 = r0 ∧ u' = canonOf r') ∧
      (jsToUpper u0 = 'L' → jsToUpper r0 = 'L') := by
  rw [List.all_cons, Bool.and_eq_true] at hok
  obtain ⟨hok0, hokr⟩ := hok
  have hcanon : ∀ (x : Char) (rest2 : Str),
      parseInputWord (r0 :: r') = createTile x :: parseInputWord rest2 →
      canonOf (r0 :: r') =
        (REVERSE_DIGRAPH_MAP (createTile x).char).getD [(createTile x).char] ++
          canonOf rest2 := by
    intro x rest2 hp
    rw [canonOf, hp, tilesChars, List.map_cons, internalToDisplayWord, List.map_cons,
      List.flatten_cons]
    rfl
  have hfb : parseInputWord (r0 :: r') = createTile r0 :: parseInputWord r' →
      ∃ u0 u', canonOf (r0 :: r') = u0 :: u' ∧
        (jsToUpper u0 = 'Y' → jsToUpper r0 = 'Y') ∧
        ((jsToUpper u0 = '·' ∨ jsToUpper u0 = '.' ∨ jsToUpper u0 = '-') →
          u0 = r0 ∧ u' = canonOf r') ∧
        (jsToUpper u0 = 'L' → jsToUpper r0 = 'L') := by
    intro hp
    refine ⟨r0, canonOf r', ?_, fun h => h, fun _ => ⟨rfl, rfl⟩, fun h => h⟩
    rw [hcanon r0 r' hp, createTile_char, okChar_rev r0 hok0]
    rfl
  cases r' with
  | nil =>
    by_cases hq : jsToUpper r0 = 'Q'
    · by_cases hq2 : r0 = 'q'
      · have hp : parseInputWord [r0] = createTile 'û' :: parseInputWord [] := by
          subst hq2; rfl
        exact ⟨'û', [], by rw [hcanon _ _ hp]; rfl, fun h => absurd h (by decide),
          fun h => absurd h (by decide), fun h => absurd h (by decide)⟩
      · have hp : parseInputWord [r0] = createTile 'Û' :: parseInputWord [] := by
          simp [parseInputWord, hq, hq2]
        exact ⟨'Q', ['U'], by rw [hcanon _ _ hp]; rfl, fun h => absurd h (by decide),
          fun h => absurd h (by decide), fun h => absurd h (by decide)⟩
    · exact hfb (by simp [parseInputWord, hq])
  | cons r1 r'' =>
    have hdig : ∀ (rest2 : Str) (m : Char), quNy r0 r1 = some m →
        parseInputWord (r0 :: r1 :: r'') = createTile
          (if isLowerJs r0 then jsToLower m else m) :: parseInputWord rest2 →
        ∃ u0 u', canonOf (r0 :: r1 :: r'') = u0 :: u' ∧
          (jsToUpper u0 = 'Y' → jsToUpper r0 = 'Y') ∧
          ((jsToUpper u0 = '·' ∨ jsToUpper u0 = '.' ∨ jsToUpper u0 = '-') →
            u0 = r0 ∧ u' = canonOf (r1 :: r'')) ∧
          (jsToUpper u0 = 'L' → jsToUpper r0 = 'L') := by
      intro rest2 m hqn hp
      rcases quNy_eq_some r0 r1 m hqn with ⟨_, _, rfl⟩ | ⟨_, _, rfl⟩ <;>
        by_cases hbl : isLowerJs r0 = true
      · rw [if_pos hbl] at hp
        exact ⟨'û', canonOf rest2, by rw [hcanon _ _ hp]; rfl,
          fun h => absurd h (by decide), fun h => absurd h (by decide),
          fun h => absurd h (by decide)⟩
      · rw [if_neg hbl] at hp
        exact ⟨'Q', 'U' :: canonOf rest2, by rw [hcanon _ _ hp]; rfl,
          fun h => absurd h (by decide), fun h => absurd h (by decide),
          fun h => absurd h (by decide)⟩
      · rw [if_pos hbl] at hp
        exact ⟨'ý', canonOf rest2, by rw [hcanon _ _ hp]; rfl,
          fun h => absurd h (by decide), fun h => absurd h (by decide),
          fun h => absurd h (by decide)⟩
      · rw [if_neg hbl] at hp
        exact ⟨'N', 'Y' :: canonOf rest2, by rw [hcanon _ _ hp]; rfl,
          fun h => absurd h (by decide), fun h => absurd h (by decide),
          fun h => absurd h (by decide)⟩
    have hpromo : ∀ (rest2 : Str), jsToUpper r0 = 'Q' →
        parseInputWord (r0 :: r1 :: r'') = createTile
          (if r0 = 'q' then 'û' else 'Û') :: parseInputWord rest2 →
        ∃ u0 u', canonOf (r0 :: r1 :: r'') = u0 :: u' ∧
          (jsToUpper u0 = 'Y' → jsToUpper r0 = 'Y') ∧
          ((jsToUpper u0 = '·' ∨ jsToUpper u0 = '.' ∨ jsToUpper u0 = '-') →
            u0 = r0 ∧ u' = canonOf (r1 :: r'')) ∧
          (jsToUpper u0 = 'L' → jsToUpper r0 = 'L') := by
      intro rest2 _ hp
      by_cases hq2 : r0 = 'q'
      · rw [if_pos hq2] at hp
        exact ⟨'û', canonOf rest2, by rw [hcanon _ _ hp]; rfl,
          fun h => absurd h (by decide), fun h => absurd h (by decide),
          fun h => absurd h (by decide)⟩
      · rw [if_neg hq2] at hp
        exact ⟨'Q', 'U' :: canonOf rest2, by rw [hcanon _ _ hp]; rfl,
          fun h => absurd h (by decide), fun h => absurd h (by decide),
          fun h => absurd h (by decide)⟩
    cases r'' with
    | nil =>
      cases hqn : quNy r0 r1 with
      | some m =>
        exact hdig [] m hqn (by simp [parseInputWord, hqn])
      | none =>
        by_cases hq : jsToUpper r0 = 'Q'
        · exact hpromo [r1] hq (by simp [parseInputWord, hqn, hq])
        · exact hfb (by simp [parseInputWord, hqn, hq])
    | cons r2 r''' =>
      by_cases h3 : lThree r0 r1 r2 = true
      · obtain ⟨hL0, _, _⟩ := lThree_decomp _ _ _ h3
        by_cases hbl : isLowerJs r0 = true
        · have hp : parseInputWord (r0 :: r1 :: r2 :: r''') =
              createTile 'ł' :: parseInputWord r''' := by
            simp [parseInputWord, h3, hbl]
          exact ⟨'ł', canonOf r''', by rw [hcanon _ _ hp]; rfl,
            fun h => absurd h (by decide), fun h => absurd h (by decide),
            fun h => absurd h (by decide)⟩
        · have hp : parseInputWord (r0 :: r1 :: r2 :: r''') =
              createTile 'Ł' :: parseInputWord r''' := by
            simp [parseInputWord, h3, hbl]
          exact ⟨'L', '·' :: 'L' :: canonOf r''', by rw [hcanon _ _ hp]; rfl,
            fun h => absurd h (by decide), fun h => absurd h (by decide),
            fun _ => hL0⟩
      · have h3f : lThree r0 r1 r2 = false := by
          cases h : lThree r0 r1 r2
          · rfl
          · exact absurd h h3
        cases hqn : quNy r0 r1 with
        | some m =>
          exact hdig (r2 :: r''') m hqn (by simp [parseInputWord, h3f, hqn])
        | none =>
          by_cases hq : jsToUpper r0 = 'Q'
          · exact hpromo (r1 :: r2 :: r''') hq (by simp [parseInputWord, h3f, hqn, hq])
          · exact hfb (by simp [parseInputWord, h3f, hqn, hq])

/-- Rendering after tokenization: one token contributes its display segment. -/
theorem canonOf_cons (w : Str) (x : Char) (rest2 : Str)
    (hp : parseInputWord w = createTile x :: parseInputWord rest2) :
    canonOf w = (REVERSE_DIGRAPH_MAP (createTile x).char).getD
      [(createTile x).char] ++ canonOf rest2 := by
  rw [canonOf, hp, tilesChars, List.map_cons, internalToDisplayWord, List.map_cons,
    List.flatten_cons]
  rfl

/-- Boundary step for an original fallback character: re-parsing the
re-rendered string consumes exactly that character again.  The hypotheses
carry the digraph mismatches the original tokenization established. -/
theorem parse_canon_fallback (a : Char) (rest' : Str)
    (hok : rest'.all okChar = true)
    (hQ : jsToUpper a ≠ 'Q')
    (hqny : ∀ r0 r'', rest' = r0 :: r'' → quNy a r0 = none)
    (hlt : ∀ r0 r1 r'', rest' = r0 :: r1 :: r'' → lThree a r0 r1 = false) :
    parseInputWord (a :: canonOf rest') =
      createTile a :: parseInputWord (canonOf rest') := by
  cases rest' with
  | nil =>
    show parseInputWord [a] = createTile a :: parseInputWord []
    simp [parseInputWord, hQ]
  | cons r0 r'' =>
    obtain ⟨u0, u', hcanon, hY, hsep, hL⟩ := canon_head_cases r0 r'' hok
    rw [hcanon]
    have hquNy : quNy a u0 = none := by
      cases hq2 : quNy a u0 with
      | none => rfl
      | some m =>
        rcases quNy_eq_some a u0 m hq2 with ⟨hQ0, _, _⟩ | ⟨hN0, hY0, _⟩
        · exact absurd hQ0 hQ
        · have hny := quNy_build_NY a r0 hN0 (hY hY0)
          rw [hqny r0 r'' rfl] at hny
          exact Option.noConfusion hny
    cases u' with
    | nil =>
      simp [parseInputWord, hquNy, hQ]
    | cons u1 U3 =>
      have hlthree : lThree a u0 u1 = false := by
        cases hl3 : lThree a u0 u1 with
        | false => rfl
        | true =>
          exfalso
          obtain ⟨hLa, hsep0, hLu1⟩ := lThree_decomp _ _ _ hl3
          obtain ⟨hu0r0, hu'⟩ := hsep hsep0
          cases r'' with
          | nil =>
            rw [show canonOf [] = [] from rfl] at hu'
            exact List.noConfusion hu'
          | cons r1 r3 =>
            rw [List.all_cons, Bool.and_eq_true] at hok
            obtain ⟨v0, v', hcanon2, _, _, hL2⟩ := canon_head_cases r1 r3 hok.2
            rw [hcanon2] at hu'
            injection hu' with hu1 _
            have hLr1 : jsToUpper r1 = 'L' := hL2 (hu1 ▸ hLu1)
            have hsepr0 : jsToUpper r0 = '·' ∨ jsToUpper r0 = '.' ∨ jsToUpper r0 = '-' :=
              hu0r0 ▸ hsep0
            have hbuilt := lThree_build a r0 r1 hLa hsepr0 hLr1
            rw [hlt r0 r1 r3 rfl] at hbuilt
            exact Bool.noConfusion hbuilt
      simp [parseInputWord, hlthree, hquNy, hQ]

/-- Claim C7: for every word composed purely of digraph/ligature spellings
and plain letters (all characters in the claim's domain `okChars`), parsing,
rendering the tiles back to display form, and parsing again yields the same
tile sequence as parsing the original word. -/
theorem claim7_round_trip (w : Str) :
    w.all okChar = true →
    parseInputWord (internalToDisplayWord (tilesChars (parseInputWord w))) =
      parseInputWord w := by
  show w.all okChar = true → parseInputWord (canonOf w) = parseInputWord w
  induction w using parseInputWord.induct with
  | case1 => intro _; rfl
  | case2 a b c rest h3 ih =>
    intro hok
    simp only [List.all_cons, Bool.and_eq_true] at hok
    by_cases hbl : isLowerJs a = true
    · have hp : parseInputWord (a :: b :: c :: rest) =
          createTile 'ł' :: parseInputWord rest := by
        simp [parseInputWord, h3, hbl]
      rw [canonOf_cons _ 'ł' rest hp, hp]
      show parseInputWord ('ł' :: canonOf rest) = createTile 'ł' :: parseInputWord rest
      rw [parse_cons_fallback 'ł' _ (by decide) (by decide) (by decide), ih hok.2.2.2]
    · have hp : parseInputWord (a :: b :: c :: rest) =
          createTile 'Ł' :: parseInputWord rest := by
        simp [parseInputWord, h3, hbl]
      rw [canonOf_cons _ 'Ł' rest hp, hp]
      show parseInputWord ('L' :: '·' :: 'L' :: canonOf rest) =
        createTile 'Ł' :: parseInputWord rest
      rw [parse_LL, ih hok.2.2.2]
  | case3 a b c rest h3 mapped hq ih =>
    intro hok
    simp only [List.all_cons, Bool.and_eq_true] at hok
    have hall : (c :: rest).all okChar = true := by
      rw [List.all_cons, Bool.and_eq_true]
      exact ⟨hok.2.2.1, hok.2.2.2⟩
    have h3f : lThree a b c = false := by
      cases hx : lThree a b c
      · rfl
      · exact absurd hx h3
    rcases quNy_eq_some a b mapped hq with ⟨_, _, rfl⟩ | ⟨_, _, rfl⟩
    · by_cases hbl : isLowerJs a = true
      · have hp : parseInputWord (a :: b :: c :: rest) =
            createTile 'û' :: parseInputWord (c :: rest) := by
          simp [parseInputWord, h3f, hq, hbl, show jsToLower 'Û' = 'û' from rfl]
        rw [canonOf_cons _ 'û' (c :: rest) hp, hp]
        show parseInputWord ('û' :: canonOf (c :: rest)) =
          createTile 'û' :: parseInputWord (c :: rest)
        rw [parse_cons_fallback 'û' _ (by decide) (by decide) (by decide), ih hall]
      · have hp : parseInputWord (a :: b :: c :: rest) =
            createTile 'Û' :: parseInputWord (c :: rest) := by
          simp [parseInputWord, h3f, hq, hbl]
        rw [canonOf_cons _ 'Û' (c :: rest) hp, hp]
        show parseInputWord ('Q' :: 'U' :: canonOf (c :: rest)) =
          createTile 'Û' :: parseInputWord (c :: rest)
        rw [parse_QU, ih hall]
    · by_cases hbl : isLowerJs a = true
      · have hp : parseInputWord (a :: b :: c :: rest) =
            createTile 'ý' :: parseInputWord (c :: rest) := by
          simp [parseInputWord, h3f, hq, hbl, show jsToLower 'Ý' = 'ý' from rfl]
        rw [canonOf_cons _ 'ý' (c :: rest) hp, hp]
        show parseInputWord ('ý' :: canonOf (c :: rest)) =
          createTile 'ý' :: parseInputWord (c :: rest)
        rw [parse_cons_fallback 'ý' _ (by decide) (by decide) (by decide), ih hall]
      · have hp : parseInputWord (a :: b :: c :: rest) =
            createTile 'Ý' :: parseInputWord (c :: rest) := by
          simp [parseInputWord, h3f, hq, hbl]
        rw [canonOf_cons _ 'Ý' (c :: rest) hp, hp]
        show parseInputWord ('N' :: 'Y' :: canonOf (c :: rest)) =
          createTile 'Ý' :: parseInputWord (c :: rest)
        rw [parse_NY, ih hall]
  | case4 a b c rest h3 hqn hQ ih =>
    intro hok
    simp only [List.all_cons, Bool.and_eq_true] at hok
    have hall : (b :: c :: rest).all okChar = true := by
      simp only [List.all_cons, Bool.and_eq_true]
      exact ⟨hok.2.1, hok.2.2.1, hok.2.2.2⟩
    have h3f : lThree a b c = false := by
      cases hx : lThree a b c
      · rfl
      · exact absurd hx h3
    by_cases hq2 : a = 'q'
    · have hp : parseInputWord (a :: b :: c :: rest) =
          createTile 'û' :: parseInputWord (b :: c :: rest) := by
        subst hq2
        simp [parseInputWord, h3f, hqn, show jsToUpper 'q' = 'Q' from rfl]
      rw [canonOf_cons _ 'û' (b :: c :: rest) hp, hp]
      show parseInputWord ('û' :: canonOf (b :: c :: rest)) =
        createTile 'û' :: parseInputWord (b :: c :: rest)
      rw [parse_cons_fallback 'û' _ (by decide) (by decide) (by decide), ih hall]
    · have hp : parseInputWord (a :: b :: c :: rest) =
          createTile 'Û' :: parseInputWord (b :: c :: rest) := by
        simp [parseInputWord, h3f, hqn, hQ, hq2]
      rw [canonOf_cons _ 'Û' (b :: c :: rest) hp, hp]
      show parseInputWord ('Q' :: 'U' :: canonOf (b :: c :: rest)) =
        createTile 'Û' :: parseInputWord (b :: c :: rest)
      rw [parse_QU, ih hall]
  | case5 a b c rest h3 hqn hQn ih =>
    intro hok
    simp only [List.all_cons, Bool.and_eq_true] at hok
    have hall : (b :: c :: rest).all okChar = true := by
      simp only [List.all_cons, Bool.and_eq_true]
      exact ⟨hok.2.1, hok.2.2.1, hok.2.2.2⟩
    have h3f : lThree a b c = false := by
      cases hx : lThree a b c
      · rfl
      · exact absurd hx h3
    have hp : parseInputWord (a :: b :: c :: rest) =
        createTile a :: parseInputWord (b :: c :: rest) := by
      simp [parseInputWord, h3f, hqn, hQn]
    rw [canonOf_cons _ a (b :: c :: rest) hp, hp, createTile_char,
      okChar_rev a hok.1]
    show parseInputWord (a :: canonOf (b :: c :: rest)) =
      createTile a :: parseInputWord (b :: c :: rest)
    rw [parse_canon_fallback a (b :: c :: rest) hall hQn
        (fun r0 r'' h => by
          injection h with h1 h2
          subst h1
          exact hqn)
        (fun r0 r1 r'' h => by
          injection h with h1 h2
          injection h2 with h3' h4
          subst h1
          subst h3'
          exact h3f),
      ih hall]
  | case6 a b mapped hq =>
    intro hok
    rcases quNy_eq_some a b mapped hq with ⟨_, _, rfl⟩ | ⟨_, _, rfl⟩
    · by_cases hbl : isLowerJs a = true
      · have hp : parseInputWord [a, b] = createTile 'û' :: parseInputWord [] := by
          simp [parseInputWord, hq, hbl, show jsToLower 'Û' = 'û' from rfl]
        rw [canonOf_cons _ 'û' [] hp, hp]
        rfl
      · have hp : parseInputWord [a, b] = createTile 'Û' :: parseInputWord [] := by
          simp [parseInputWord, hq, hbl]
        rw [canonOf_cons _ 'Û' [] hp, hp]
        rfl
    · by_cases hbl : isLowerJs a = true
      · have hp : parseInputWord [a, b] = createTile 'ý' :: parseInputWord [] := by
          simp [parseInputWord, hq, hbl, show jsToLower 'Ý' = 'ý' from rfl]
        rw [canonOf_cons _ 'ý' [] hp, hp]
        rfl
      · have hp : parseInputWord [a, b] = createTile 'Ý' :: parseInputWord [] := by
          simp [parseInputWord, hq, hbl]
        rw [canonOf_cons _ 'Ý' [] hp, hp]
        rfl
  | case7 a b hqn hQ ih =>
    intro hok
    simp only [List.all_cons, Bool.and_eq_true] at hok
    have hall : [b].all okChar = true := by
      simp only [List.all_cons, List.all_nil, Bool.and_true]
      exact hok.2.1
    by_cases hq2 : a = 'q'
    · have hp : parseInputWord [a, b] = createTile 'û' :: parseInputWord [b] := by
        subst hq2
        simp [parseInputWord, hqn, show jsToUpper 'q' = 'Q' from rfl]
      rw [canonOf_cons _ 'û' [b] hp, hp]
      show parseInputWord ('û' :: canonOf [b]) = createTile 'û' :: parseInputWord [b]
      rw [parse_cons_fallback 'û' _ (by decide) (by decide) (by decide), ih hall]
    · have hp : parseInputWord [a, b] = createTile 'Û' :: parseInputWord [b] := by
        simp [parseInputWord, hqn, hQ, hq2]
      rw [canonOf_cons _ 'Û' [b] hp, hp]
      show parseInputWord ('Q' :: 'U' :: canonOf [b]) = createTile 'Û' :: parseInputWord [b]
      rw [parse_QU, ih hall]
  | case8 a b hqn hQn ih =>
    intro hok
    simp only [List.all_cons, Bool.and_eq_true] at hok
    have hall : [b].all okChar = true := by
      simp only [List.all_cons, List.all_nil, Bool.and_true]
      exact hok.2.1
    have hp : parseInputWord [a, b] = createTile a :: parseInputWord [b] := by
      simp [parseInputWord, hqn, hQn]
    rw [canonOf_cons _ a [b] hp, hp, createTile_char, okChar_rev a hok.1]
    show parseInputWord (a :: canonOf [b]) = createTile a :: parseInputWord [b]
    rw [parse_canon_fallback a [b] hall hQn
        (fun r0 r'' h => by
          injection h with h1 h2
          subst h1
          exact hqn)
        (fun r0 r1 r'' h => by
          injection h with h1 h2
          injection h2),
      ih hall]
  | case9 a hQ =>
    intro hok
    by_cases hq2 : a = 'q'
    · have hp : parseInputWord [a] = createTile 'û' :: parseInputWord [] := by
        subst hq2; rfl
      rw [canonOf_cons _ 'û' [] hp, hp]
      rfl
    · have hp : parseInputWord [a] = createTile 'Û' :: parseInputWord [] := by
        simp [parseInputWord, hQ, hq2]
      rw [canonOf_cons _ 'Û' [] hp, hp]
      rfl
  | case10 a hQn =>
    intro hok
    simp only [List.all_cons, Bool.and_eq_true] at hok
    have hp : parseInputWord [a] = createTile a :: parseInputWord [] := by
      simp [parseInputWord, hQn]
    rw [canonOf_cons _ a [] hp, hp, createTile_char, okChar_rev a hok.1]
    show parseInputWord [a] = createTile a :: parseInputWord []
    exact hp

/-- Witness for C7 at the word CANYAL·L (plain letters, the NY digraph and
the L·L ligature). -/
theorem claim7_round_trip_witness :
    ("CANYAL·L".toList).all okChar = true ∧
    parseInputWord (internalToDisplayWord (tilesChars
      (parseInputWord "CANYAL·L".toList))) = parseInputWord "CANYAL·L".toList :=
  ⟨by decide, claim7_round_trip _ (by decide)⟩
